import Mathlib

/-!
Shallow embedding of the skycoin wallet registry (`src/wallet/service.go`).

The service state (`Service` in Go) is embedded as `ServiceSt`; Go's in-place
map mutation is embedded as explicit state passing: every operation returns
the (possibly mutated) state together with its `Except` result, so error
paths faithfully show whether the in-memory state was touched.

Collaborators that live outside the source slice (the `Wallet` methods
`Save`, `Lock`, `Unlock`, `GuardUpdate`, `GuardView`,
`GenerateSkycoinAddresses`, the constructors `NewWallet` /
`NewWalletScanAhead`, and address derivation) are modelled from the spec;
each such definition's doc comment says so.
-/

namespace Skycoin

/-- Error kinds of the wallet service and its collaborators (§7 of the spec,
`ErrWallet...` values in the repository). -/
inductive Err where
  | apiDisabled
  | seedApiDisabled
  | notExist
  | walletEncrypted
  | notEncrypted
  | seedUsed
  | nameConflict
  | missingPassword
  | invalidPassword
  | recoverSeedWrong
  | notDeterministic
  | saveFailed
  | emptyEntries
  | dupOnLoad
  | emptyOnLoad
  | callbackFailed
deriving DecidableEq, Repr

/-- An address entry of a wallet (`Entry`); only the address is observed by
the registry logic in `service.go`. -/
structure Entry where
  address : String
deriving DecidableEq, Repr

/-- A wallet (`Wallet`).  The cryptographic envelope is abstracted: an
encrypted wallet keeps its seed as opaque ciphertext and records the
password it was locked with, so that `unlockW` can authenticate. -/
structure Wallet where
  filename : String
  label : String
  coin : String
  walletType : String
  cryptoType : String
  seed : String
  password : String
  encrypted : Bool
  timestamp : Nat
  entries : List Entry
deriving DecidableEq, Repr

/-- Wallet creation options (`Options`). -/
structure Options where
  coin : String
  label : String
  seed : String
  encrypt : Bool
  password : String
  cryptoType : String
  generateN : Nat
deriving DecidableEq, Repr

/-- Service configuration (`Config`). -/
structure Config where
  walletDir : String
  cryptoType : String
  enableWalletAPI : Bool
  enableSeedAPI : Bool
deriving DecidableEq, Repr

/-- The deterministic wallet type tag (`WalletTypeDeterministic`). -/
def WalletTypeDeterministic : String := "deterministic"

/-- Lookup in an association list; embeds Go map read (`m[k]`). -/
def lookupA {α : Type} : List (String × α) → String → Option α
  | [], _ => none
  | p :: rest, k => if p.1 = k then some p.2 else lookupA rest k

/-- Deletion from an association list; embeds Go `delete(m, k)`. -/
def eraseA {α : Type} (m : List (String × α)) (k : String) : List (String × α) :=
  m.filter (fun p => p.1 ≠ k)

/-- Insert-or-replace in an association list; embeds Go map write
(`m[k] = v`).  Replaces in place so positions of other keys are stable. -/
def setA {α : Type} : List (String × α) → String → α → List (String × α)
  | [], k, v => [(k, v)]
  | p :: rest, k, v => if p.1 = k then (k, v) :: rest else p :: setA rest k v

/-- Modelled from the spec: deterministic address derivation
(`deriveAddresses(seed, n)` of §6; `GenerateDeterministicKeyPair` plus the
wallet's coin-specific address constructor).  Any concrete deterministic
function of coin, seed and index serves as the model. -/
def deriveAddress (coin seed : String) (i : Nat) : String :=
  coin ++ ":" ++ seed ++ ":" ++ toString i

/-- Modelled from the spec: the persistence collaborator
(`save(wallet, directory) → error`, §6).  The Boolean argument is the
outcome of the disk write, supplied per call. -/
def save (ok : Bool) : Except Err Unit :=
  if ok then .ok () else .error .saveFailed

/-- Modelled from the spec: the cryptographic guard `lock` (§6), encrypting
a wallet's secret material under a password with a given scheme. -/
def lockW (w : Wallet) (pwd : String) (ct : String) : Except Err Wallet :=
  if pwd = "" then .error .missingPassword
  else if w.encrypted then .error .walletEncrypted
  else .ok { w with encrypted := true, password := pwd, cryptoType := ct }

/-- Modelled from the spec: the cryptographic guard `unlock` (§6); a wrong
password is an authentication failure. -/
def unlockW (w : Wallet) (pwd : String) : Except Err Wallet :=
  if pwd = "" then .error .missingPassword
  else if ¬ w.encrypted then .error .notEncrypted
  else if pwd = w.password then .ok { w with encrypted := false, password := "" }
  else .error .invalidPassword

/-- Modelled from the spec (§4.4): `GuardUpdate` decrypts a working copy,
runs the callback on it, and re-encrypts the result with the same password
under the wallet's own scheme. -/
def GuardUpdate {α : Type} (w : Wallet) (pwd : String)
    (f : Wallet → Except Err (Wallet × α)) : Except Err (Wallet × α) :=
  if ¬ w.encrypted then .error .notEncrypted
  else
    match unlockW w pwd with
    | .error e => .error e
    | .ok wu =>
      match f wu with
      | .error e => .error e
      | .ok (w2, a) =>
        match lockW w2 pwd w.cryptoType with
        | .error e => .error e
        | .ok w3 => .ok (w3, a)

/-- Modelled from the spec (§4.4): `GuardView` decrypts a working copy,
runs the read-only callback, and discards the copy. -/
def GuardView {α : Type} (w : Wallet) (pwd : String)
    (f : Wallet → Except Err α) : Except Err α :=
  if ¬ w.encrypted then .error .notEncrypted
  else
    match unlockW w pwd with
    | .error e => .error e
    | .ok wu => f wu

/-- Modelled from the spec (§4.5): `GenerateSkycoinAddresses` derives the
requested number of new sequential addresses from the wallet's seed and
appends them; it needs cleartext secrets, so it fails on an encrypted
wallet. -/
def generateSkycoinAddresses (w : Wallet) (num : Nat) :
    Except Err (Wallet × List String) :=
  if w.encrypted then .error .walletEncrypted
  else
    let n := w.entries.length
    let addrs := (List.range num).map (fun i => deriveAddress w.coin w.seed (n + i))
    .ok ({ w with entries := w.entries ++ addrs.map (fun a => { address := a }) }, addrs)

/-- Modelled from the spec (§4.2/§6): the deterministic wallet built by the
construction collaborator before optional encryption, with `cnt` derived
entries. -/
def mkDeterministicWallet (name : String) (o : Options) (cnt : Nat) (now : Nat) : Wallet :=
  { filename := name
    label := o.label
    coin := o.coin
    walletType := WalletTypeDeterministic
    cryptoType := o.cryptoType
    seed := o.seed
    password := ""
    encrypted := false
    timestamp := now
    entries := (List.range cnt).map (fun i => { address := deriveAddress o.coin o.seed i }) }

/-- Modelled from the spec: `newWallet(name, options, ...)` (§6); one
address is generated by default (the `CreateWallet` comment in the source),
and the wallet is locked immediately when `options.encrypt` is set. -/
def NewWallet (name : String) (o : Options) (now : Nat) : Except Err Wallet :=
  let n := if o.generateN = 0 then 1 else o.generateN
  let w := mkDeterministicWallet name o n now
  if o.encrypt then lockW w o.password o.cryptoType else .ok w

/-- Modelled from the spec: `NewWalletScanAhead`; `extraScan` abstracts the
number of additional active addresses the balance oracle makes the
scan-ahead keep beyond `generateN` (§6, glossary "Scan-ahead"). -/
def NewWalletScanAhead (name : String) (o : Options) (extraScan : Nat) (now : Nat) :
    Except Err Wallet :=
  let n := (if o.generateN = 0 then 1 else o.generateN) + extraScan
  let w := mkDeterministicWallet name o n now
  if o.encrypt then lockW w o.password o.cryptoType else .ok w

/-- `Wallet.setLabel`. -/
def setLabel (w : Wallet) (l : String) : Wallet := { w with label := l }

/-- First entry's address of a wallet (`w.Entries[0].Address.String()`);
total, with a sentinel for the empty case the registry never stores. -/
def firstAddr (w : Wallet) : String :=
  match w.entries with
  | [] => ""
  | e :: _ => e.address

/-- The wallet service state (`Service`): the wallets map, the
first-address index (`firstAddrIDMap`) and the configuration. -/
structure ServiceSt where
  wallets : List (String × Wallet)
  firstAddrIDMap : List (String × String)
  config : Config
deriving DecidableEq, Repr

/-- Modelled from the spec (§3): `Wallets.add` — WalletID is unique within
the registry, so inserting an already-used id fails (name conflict). -/
def walletsAdd (m : List (String × Wallet)) (w : Wallet) :
    Except Err (List (String × Wallet)) :=
  match lookupA m w.filename with
  | some _ => .error .nameConflict
  | none => .ok (m ++ [(w.filename, w)])

/-- `Service.getWallet`: resolve a wallet by id, `ErrWalletNotExist` when
absent.  Cloning is the identity in this pure embedding. -/
def getWallet (s : ServiceSt) (wltID : String) : Except Err Wallet :=
  match lookupA s.wallets wltID with
  | none => .error .notExist
  | some w => .ok w

/-- The index-building loop of `Service.setWallets`. -/
def buildIndex : List (String × Wallet) → List (String × String) → List (String × String)
  | [], m => m
  | p :: rest, m => buildIndex rest (setA m (firstAddr p.2) p.1)

/-- `Service.setWallets`: install a wallet set and extend the first-address
index from it. -/
def setWallets (s : ServiceSt) (wlts : List (String × Wallet)) : ServiceSt :=
  { s with wallets := wlts, firstAddrIDMap := buildIndex wlts s.firstAddrIDMap }

/-- Modelled from the spec (§4.1): duplicate-first-address detection on the
loaded wallet set (`Wallets.containsDuplicate`). -/
def hasDupAddrs : List String → Bool
  | [] => false
  | a :: rest => if a ∈ rest then true else hasDupAddrs rest

/-- Modelled from the spec (§4.1): empty-wallet detection on the loaded
wallet set (`Wallets.containsEmpty`). -/
def containsEmpty (wlts : List (String × Wallet)) : Bool :=
  wlts.any (fun p => p.2.entries.isEmpty)

/-- Modelled from the spec (§6): `LoadWallets` keys the loaded wallets by
their filenames. -/
def LoadWallets (loaded : List Wallet) : List (String × Wallet) :=
  loaded.map (fun w => (w.filename, w))

/-- `NewService`: with the wallet API disabled the registry starts empty;
otherwise the loaded set is validated (no duplicate first address, no empty
wallet) and installed.  Filesystem preparation (mkdir, backup removal) is
external and elided. -/
def NewService (c : Config) (loaded : List Wallet) : Except Err ServiceSt :=
  let serv : ServiceSt := { wallets := [], firstAddrIDMap := [], config := c }
  if ¬ c.enableWalletAPI then .ok serv
  else
    let w := LoadWallets loaded
    if hasDupAddrs (w.map (fun p => firstAddr p.2)) then .error .dupOnLoad
    else if containsEmpty w then .error .emptyOnLoad
    else .ok (setWallets serv w)

/-- `Service.loadWallet`: construct, duplicate-seed check against the
index, add to the map, save (removing the added wallet again on failure),
then record the first address in the index. -/
def loadWallet (s : ServiceSt) (wltName : String) (o : Options)
    (extraScan : Nat) (now : Nat) (saveOk : Bool) : ServiceSt × Except Err Wallet :=
  let o2 := if o.encrypt then { o with cryptoType := s.config.cryptoType } else o
  match NewWalletScanAhead wltName o2 extraScan now with
  | .error e => (s, .error e)
  | .ok w =>
    match lookupA s.firstAddrIDMap (firstAddr w) with
    | some _ => (s, .error .seedUsed)
    | none =>
      match walletsAdd s.wallets w with
      | .error e => (s, .error e)
      | .ok ws1 =>
        let s1 := { s with wallets := ws1 }
        match save saveOk with
        | .error e => ({ s1 with wallets := eraseA s1.wallets w.filename }, .error e)
        | .ok _ =>
          ({ s1 with firstAddrIDMap := setA s1.firstAddrIDMap (firstAddr w) w.filename },
           .ok w)

/-- `Service.generateUniqueWalletFilename`; the external random name source
is modelled as a supplied candidate stream, searched for an unused name. -/
def generateUniqueWalletFilename (s : ServiceSt) : List String → String
  | [] => ""
  | n :: rest =>
    match lookupA s.wallets n with
    | some _ => generateUniqueWalletFilename s rest
    | none => n

/-- `Service.CreateWallet`. -/
def CreateWallet (s : ServiceSt) (wltName : String) (o : Options) (extraScan : Nat)
    (now : Nat) (candidates : List String) (saveOk : Bool) :
    ServiceSt × Except Err Wallet :=
  if ¬ s.config.enableWalletAPI then (s, .error .apiDisabled)
  else
    let name := if wltName = "" then generateUniqueWalletFilename s candidates else wltName
    loadWallet s name o extraScan now saveOk

/-- `Service.EncryptWallet`. -/
def EncryptWallet (s : ServiceSt) (wltID : String) (pwd : String) (saveOk : Bool) :
    ServiceSt × Except Err Wallet :=
  if ¬ s.config.enableWalletAPI then (s, .error .apiDisabled)
  else
    match getWallet s wltID with
    | .error e => (s, .error e)
    | .ok w =>
      if w.encrypted then (s, .error .walletEncrypted)
      else
        match lockW w pwd s.config.cryptoType with
        | .error e => (s, .error e)
        | .ok w2 =>
          match save saveOk with
          | .error e => (s, .error e)
          | .ok _ => ({ s with wallets := setA s.wallets w2.filename w2 }, .ok w2)

/-- `Service.DecryptWallet`. -/
def DecryptWallet (s : ServiceSt) (wltID : String) (pwd : String) (saveOk : Bool) :
    ServiceSt × Except Err Wallet :=
  if ¬ s.config.enableWalletAPI then (s, .error .apiDisabled)
  else
    match getWallet s wltID with
    | .error e => (s, .error e)
    | .ok w =>
      if ¬ w.encrypted then (s, .error .notEncrypted)
      else
        match unlockW w pwd with
        | .error e => (s, .error e)
        | .ok unlockWlt =>
          match save saveOk with
          | .error e => (s, .error e)
          | .ok _ =>
            ({ s with wallets := setA s.wallets unlockWlt.filename unlockWlt },
             .ok unlockWlt)

/-- `Service.NewAddresses`. -/
def NewAddresses (s : ServiceSt) (wltID : String) (pwd : String) (num : Nat)
    (saveOk : Bool) : ServiceSt × Except Err (List String) :=
  if ¬ s.config.enableWalletAPI then (s, .error .apiDisabled)
  else
    match getWallet s wltID with
    | .error e => (s, .error e)
    | .ok w =>
      let guarded : Except Err (Wallet × List String) :=
        if w.encrypted then
          GuardUpdate w pwd (fun wlt => generateSkycoinAddresses wlt num)
        else if pwd ≠ "" then .error .notEncrypted
        else generateSkycoinAddresses w num
      match guarded with
      | .error e => (s, .error e)
      | .ok (w2, addrs) =>
        match save saveOk with
        | .error e => (s, .error e)
        | .ok _ => ({ s with wallets := setA s.wallets w2.filename w2 }, .ok addrs)

/-- `Service.GetWallet` (read-only). -/
def GetWallet (s : ServiceSt) (wltID : String) : ServiceSt × Except Err Wallet :=
  if ¬ s.config.enableWalletAPI then (s, .error .apiDisabled)
  else (s, getWallet s wltID)

/-- `Service.GetWallets` (read-only; clones are the identity here). -/
def GetWallets (s : ServiceSt) : ServiceSt × Except Err (List (String × Wallet)) :=
  if ¬ s.config.enableWalletAPI then (s, .error .apiDisabled)
  else (s, .ok s.wallets)

/-- `Service.UpdateWalletLabel`. -/
def UpdateWalletLabel (s : ServiceSt) (wltID : String) (label : String)
    (saveOk : Bool) : ServiceSt × Except Err Unit :=
  if ¬ s.config.enableWalletAPI then (s, .error .apiDisabled)
  else
    match getWallet s wltID with
    | .error e => (s, .error e)
    | .ok w =>
      let w2 := setLabel w label
      match save saveOk with
      | .error e => (s, .error e)
      | .ok _ => ({ s with wallets := setA s.wallets w2.filename w2 }, .ok ())

/-- `Service.UnloadWallet`. -/
def UnloadWallet (s : ServiceSt) (wltID : String) : ServiceSt × Except Err Unit :=
  if ¬ s.config.enableWalletAPI then (s, .error .apiDisabled)
  else
    let s1 :=
      match lookupA s.wallets wltID with
      | some wlt =>
        match wlt.entries with
        | e :: _ => { s with firstAddrIDMap := eraseA s.firstAddrIDMap e.address }
        | [] => s
      | none => s
    ({ s1 with wallets := eraseA s1.wallets wltID }, .ok ())

/-- `Service.GetWalletSeed` (read-only). -/
def GetWalletSeed (s : ServiceSt) (wltID : String) (pwd : String) :
    ServiceSt × Except Err String :=
  if ¬ s.config.enableWalletAPI then (s, .error .apiDisabled)
  else if ¬ s.config.enableSeedAPI then (s, .error .seedApiDisabled)
  else
    match getWallet s wltID with
    | .error e => (s, .error e)
    | .ok w =>
      if ¬ w.encrypted then (s, .error .notEncrypted)
      else (s, GuardView w pwd (fun wlt => .ok wlt.seed))

/-- `Service.UpdateSecrets`; the caller-supplied callback is embedded as a
function from the wallet to its mutated form (Go mutates through the
pointer). -/
def UpdateSecrets (s : ServiceSt) (wltID : String) (pwd : String)
    (f : Wallet → Except Err Wallet) (saveOk : Bool) : ServiceSt × Except Err Unit :=
  if ¬ s.config.enableWalletAPI then (s, .error .apiDisabled)
  else
    match getWallet s wltID with
    | .error e => (s, .error e)
    | .ok w =>
      let stepped : Except Err Wallet :=
        if w.encrypted then
          match GuardUpdate w pwd (fun wlt =>
              match f wlt with
              | .error e => .error e
              | .ok w2 => .ok (w2, ())) with
          | .error e => .error e
          | .ok (w2, _) => .ok w2
        else if pwd ≠ "" then .error .notEncrypted
        else f w
      match stepped with
      | .error e => (s, .error e)
      | .ok w2 =>
        match save saveOk with
        | .error e => (s, .error e)
        | .ok _ => ({ s with wallets := setA s.wallets w2.filename w2 }, .ok ())

/-- `Service.Update`. -/
def Update (s : ServiceSt) (wltID : String) (f : Wallet → Except Err Wallet)
    (saveOk : Bool) : ServiceSt × Except Err Unit :=
  if ¬ s.config.enableWalletAPI then (s, .error .apiDisabled)
  else
    match getWallet s wltID with
    | .error e => (s, .error e)
    | .ok w =>
      match f w with
      | .error e => (s, .error e)
      | .ok w2 =>
        match save saveOk with
        | .error e => (s, .error e)
        | .ok _ => ({ s with wallets := setA s.wallets w2.filename w2 }, .ok ())

/-- `Service.ViewSecrets` (read-only). -/
def ViewSecrets (s : ServiceSt) (wltID : String) (pwd : String)
    (f : Wallet → Except Err Unit) : ServiceSt × Except Err Unit :=
  if ¬ s.config.enableWalletAPI then (s, .error .apiDisabled)
  else
    match getWallet s wltID with
    | .error e => (s, .error e)
    | .ok w =>
      if w.encrypted then (s, GuardView w pwd f)
      else if pwd ≠ "" then (s, .error .notEncrypted)
      else (s, f w)

/-- `Service.View` (read-only). -/
def View (s : ServiceSt) (wltID : String) (f : Wallet → Except Err Unit) :
    ServiceSt × Except Err Unit :=
  if ¬ s.config.enableWalletAPI then (s, .error .apiDisabled)
  else
    match getWallet s wltID with
    | .error e => (s, .error e)
    | .ok w => (s, f w)

/-- `Service.RecoverWallet`. -/
def RecoverWallet (s : ServiceSt) (wltName : String) (seed : String) (pwd : String)
    (now : Nat) (saveOk : Bool) : ServiceSt × Except Err Wallet :=
  if ¬ s.config.enableWalletAPI then (s, .error .apiDisabled)
  else
    match getWallet s wltName with
    | .error e => (s, .error e)
    | .ok w =>
      if ¬ w.encrypted then (s, .error .notEncrypted)
      else if w.walletType ≠ WalletTypeDeterministic then (s, .error .notDeterministic)
      else
        match w.entries with
        | [] => (s, .error .emptyEntries)
        | e0 :: _ =>
          if deriveAddress w.coin seed 0 ≠ e0.address then (s, .error .recoverSeedWrong)
          else
            match NewWallet wltName
                { coin := w.coin, label := w.label, seed := seed,
                  encrypt := pwd ≠ "", password := pwd,
                  cryptoType := w.cryptoType, generateN := w.entries.length } now with
            | .error e => (s, .error e)
            | .ok w2a =>
              let w2 := { w2a with timestamp := w.timestamp }
              match save saveOk with
              | .error e => (s, .error e)
              | .ok _ => ({ s with wallets := setA s.wallets w2.filename w2 }, .ok w2)

/-- The entries appended by `generateSkycoinAddresses` (a name for the
expression in its body). -/
def newEntries (w : Wallet) (num : Nat) : List Entry :=
  ((List.range num).map (fun i => deriveAddress w.coin w.seed (w.entries.length + i))).map
    (fun a => { address := a })

/-- The registry invariant: wallet-map keys are unique and match the stored
wallet's filename, stored wallets are non-empty, the first-address index
maps each wallet's first address to its id, and the index has no other
entries. -/
def Inv (s : ServiceSt) : Prop :=
  (s.wallets.map Prod.fst).Nodup ∧
  (s.firstAddrIDMap.map Prod.fst).Nodup ∧
  (∀ p ∈ s.wallets, p.2.filename = p.1 ∧ p.2.entries ≠ [] ∧
      lookupA s.firstAddrIDMap (firstAddr p.2) = some p.1) ∧
  (∀ q ∈ s.firstAddrIDMap, ∃ p ∈ s.wallets, p.1 = q.2 ∧ firstAddr p.2 = q.1)

instance (s : ServiceSt) : Decidable (Inv s) := by
  unfold Inv
  infer_instance


/-- Callbacks that keep the wallet's identity: same filename, same first
address and non-empty entries.  The built-in callbacks of the service have
this property; caller-supplied `Update`/`UpdateSecrets` callbacks need not. -/
def CallbackOK (f : Wallet → Except Err Wallet) : Prop :=
  ∀ w w2, f w = .ok w2 →
    w2.filename = w.filename ∧ firstAddr w2 = firstAddr w ∧ w2.entries ≠ []

/-- One service operation, as a relation on registry states.  `P`
constrains the caller-supplied callbacks of `Update`/`UpdateSecrets`; the
fully general service allows `P := fun f => True`.  Read-only operations do
not change the state and are omitted. -/
inductive Step (P : (Wallet → Except Err Wallet) → Prop) : ServiceSt → ServiceSt → Prop where
  | create (s : ServiceSt) (wltName : String) (o : Options) (extraScan now : Nat)
      (candidates : List String) (saveOk : Bool) :
      Step P s (CreateWallet s wltName o extraScan now candidates saveOk).1
  | encrypt (s : ServiceSt) (wltID pwd : String) (saveOk : Bool) :
      Step P s (EncryptWallet s wltID pwd saveOk).1
  | decrypt (s : ServiceSt) (wltID pwd : String) (saveOk : Bool) :
      Step P s (DecryptWallet s wltID pwd saveOk).1
  | newAddresses (s : ServiceSt) (wltID pwd : String) (num : Nat) (saveOk : Bool) :
      Step P s (NewAddresses s wltID pwd num saveOk).1
  | updateLabel (s : ServiceSt) (wltID label : String) (saveOk : Bool) :
      Step P s (UpdateWalletLabel s wltID label saveOk).1
  | unload (s : ServiceSt) (wltID : String) :
      Step P s (UnloadWallet s wltID).1
  | updateSecrets (s : ServiceSt) (wltID pwd : String)
      (f : Wallet → Except Err Wallet) (saveOk : Bool) (hf : P f) :
      Step P s (UpdateSecrets s wltID pwd f saveOk).1
  | update (s : ServiceSt) (wltID : String)
      (f : Wallet → Except Err Wallet) (saveOk : Bool) (hf : P f) :
      Step P s (Update s wltID f saveOk).1
  | recover (s : ServiceSt) (wltName seed pwd : String) (now : Nat) (saveOk : Bool) :
      Step P s (RecoverWallet s wltName seed pwd now saveOk).1

/-- States reachable by a sequence of operations. -/
inductive Reach (P : (Wallet → Except Err Wallet) → Prop) : ServiceSt → ServiceSt → Prop where
  | refl (s : ServiceSt) : Reach P s s
  | tail (s t u : ServiceSt) : Reach P s t → Step P t u → Reach P s u

/-- Example configuration with the wallet API enabled. -/
def cEx : Config :=
  { walletDir := "./", cryptoType := "scrypt-chacha20poly1305",
    enableWalletAPI := true, enableSeedAPI := true }

/-- Example unencrypted deterministic wallet. -/
def wEx : Wallet :=
  { filename := "w1.wlt", label := "L", coin := "skycoin",
    walletType := "deterministic", cryptoType := "scrypt-chacha20poly1305",
    seed := "s1", password := "", encrypted := false, timestamp := 7,
    entries := [{ address := "skycoin:s1:0" }] }

/-- The registry state produced by initializing with `wEx` on disk. -/
def s0Ex : ServiceSt :=
  { wallets := [("w1.wlt", wEx)],
    firstAddrIDMap := [("skycoin:s1:0", "w1.wlt")],
    config := cEx }

/-- A caller-supplied `Update` callback that replaces the wallet's entries,
moving its first address. -/
def fBad : Wallet → Except Err Wallet :=
  fun w => .ok { w with entries := [{ address := "elsewhere" }] }

/-- The state after updating `wEx` through `fBad` with a successful save. -/
def s1Ex : ServiceSt := (Update s0Ex "w1.wlt" fBad true).1


/-- Options used by the C3 witness: same seed as the wallet already stored
in `s0Ex`. -/
def oEx : Options :=
  { coin := "skycoin", label := "M", seed := "s1", encrypt := false,
    password := "", cryptoType := "x", generateN := 1 }


/-- Options used by the C4 witness: a fresh seed. -/
def oEx2 : Options :=
  { coin := "skycoin", label := "M", seed := "s2", encrypt := false,
    password := "", cryptoType := "x", generateN := 1 }


/-- Example encrypted deterministic wallet. -/
def wEnc : Wallet :=
  { filename := "we.wlt", label := "E", coin := "skycoin",
    walletType := "deterministic", cryptoType := "scrypt-chacha20poly1305",
    seed := "s9", password := "pw", encrypted := true, timestamp := 3,
    entries := [{ address := "skycoin:s9:0" }] }

/-- Registry state holding the encrypted wallet `wEnc`. -/
def sEnc : ServiceSt :=
  { wallets := [("we.wlt", wEnc)],
    firstAddrIDMap := [("skycoin:s9:0", "we.wlt")],
    config := cEx }



/-- The wallet produced by the C6 witness recovery run. -/
def wRec : Wallet :=
  { filename := "we.wlt", label := "E", coin := "skycoin",
    walletType := "deterministic", cryptoType := "scrypt-chacha20poly1305",
    seed := "s9", password := "np", encrypted := true, timestamp := 3,
    entries := [{ address := "skycoin:s9:0" }] }

/-- The state produced by the C6 witness recovery run. -/
def sRec : ServiceSt := (RecoverWallet sEnc "we.wlt" "s9" "np" 5 true).1

/-- The wallet produced by the C8 witness run: one address generated on the
encrypted wallet `wEnc` through the guarded update. -/
def wEnc2 : Wallet :=
  { wEnc with entries := [{ address := "skycoin:s9:0" }, { address := "skycoin:s9:1" }] }

/-! ### Association-map lemmas -/

theorem save_true : save true = .ok () := rfl

theorem save_false : save false = .error .saveFailed := rfl

theorem lookupA_setA {α : Type} (m : List (String × α)) (k : String) (v : α)
    (k2 : String) :
    lookupA (setA m k v) k2 = if k = k2 then some v else lookupA m k2 := by
  induction m with
  | nil => simp [setA, lookupA]
  | cons p rest ih =>
    by_cases hpk : p.1 = k
    · simp only [setA, hpk, if_pos rfl, lookupA]
      by_cases hk2 : k = k2
      · simp [hk2]
      · have : p.1 ≠ k2 := by rw [hpk]; exact hk2
        simp [hk2, lookupA, hpk, this]
    · simp only [setA, if_neg hpk, lookupA]
      by_cases hp2 : p.1 = k2
      · have : k ≠ k2 := by intro h; exact hpk (h ▸ hp2)
        simp [hp2, this]
      · simp [hp2, ih]

theorem lookupA_eq_none_iff {α : Type} (m : List (String × α)) (k : String) :
    lookupA m k = none ↔ ∀ p ∈ m, p.1 ≠ k := by
  induction m with
  | nil => simp [lookupA]
  | cons p rest ih =>
    by_cases hp : p.1 = k
    · simp [lookupA, hp]
    · simp [lookupA, hp, ih]

theorem lookupA_eq_none_iff_keys {α : Type} (m : List (String × α)) (k : String) :
    lookupA m k = none ↔ k ∉ m.map Prod.fst := by
  rw [lookupA_eq_none_iff]
  constructor
  · intro h hk
    rcases List.mem_map.1 hk with ⟨p, hp, hpk⟩
    exact h p hp hpk
  · intro h p hp hpk
    exact h (List.mem_map.2 ⟨p, hp, hpk⟩)

theorem lookupA_mem {α : Type} (m : List (String × α)) (k : String) (v : α)
    (h : lookupA m k = some v) : (k, v) ∈ m := by
  induction m with
  | nil => simp [lookupA] at h
  | cons p rest ih =>
    rcases p with ⟨a, b⟩
    by_cases hp : a = k
    · subst hp
      simp [lookupA] at h
      subst h
      exact List.mem_cons_self _ _
    · simp only [lookupA, if_neg hp] at h
      exact List.mem_cons_of_mem _ (ih h)

theorem mem_lookupA {α : Type} (m : List (String × α)) (p : String × α)
    (hnd : (m.map Prod.fst).Nodup) (hp : p ∈ m) : lookupA m p.1 = some p.2 := by
  induction m with
  | nil => simp at hp
  | cons q rest ih =>
    rcases List.mem_cons.1 hp with h | h
    · subst h; simp [lookupA]
    · have hq : q.1 ≠ p.1 := by
        intro he
        have : q.1 ∈ rest.map Prod.fst := he ▸ List.mem_map.2 ⟨p, h, rfl⟩
        exact (List.nodup_cons.1 hnd).1 this
      simp only [lookupA, if_neg hq]
      exact ih (List.nodup_cons.1 hnd).2 h

theorem mem_eraseA {α : Type} (m : List (String × α)) (k : String) (p : String × α) :
    p ∈ eraseA m k ↔ p ∈ m ∧ p.1 ≠ k := by
  simp [eraseA, List.mem_filter]

theorem eraseA_of_absent {α : Type} (m : List (String × α)) (k : String)
    (h : lookupA m k = none) : eraseA m k = m := by
  rw [lookupA_eq_none_iff] at h
  exact List.filter_eq_self.2 (fun p hp => by simpa using h p hp)

theorem lookupA_eraseA_self {α : Type} (m : List (String × α)) (k : String) :
    lookupA (eraseA m k) k = none := by
  rw [lookupA_eq_none_iff]
  intro p hp
  exact ((mem_eraseA m k p).1 hp).2

theorem lookupA_eraseA_ne {α : Type} (m : List (String × α)) (k k2 : String)
    (h : k ≠ k2) : lookupA (eraseA m k) k2 = lookupA m k2 := by
  induction m with
  | nil => simp [eraseA, lookupA]
  | cons p rest ih =>
    by_cases hpk : p.1 = k
    · have hp2 : p.1 ≠ k2 := by rw [hpk]; exact h
      simp only [eraseA, List.filter_cons] at *
      simp only [hpk, lookupA] at *
      simp_all [lookupA]
    · simp only [eraseA, List.filter_cons] at *
      by_cases hp2 : p.1 = k2 <;> simp_all [lookupA]

theorem keys_setA_present {α : Type} (m : List (String × α)) (k : String) (v : α)
    (h : lookupA m k ≠ none) : (setA m k v).map Prod.fst = m.map Prod.fst := by
  induction m with
  | nil => simp [lookupA] at h
  | cons p rest ih =>
    by_cases hpk : p.1 = k
    · simp [setA, hpk]
    · simp only [lookupA, if_neg hpk] at h
      simp [setA, hpk, ih h]

theorem keys_setA_absent {α : Type} (m : List (String × α)) (k : String) (v : α)
    (h : lookupA m k = none) : (setA m k v).map Prod.fst = m.map Prod.fst ++ [k] := by
  induction m with
  | nil => simp [setA]
  | cons p rest ih =>
    by_cases hpk : p.1 = k
    · simp [lookupA, hpk] at h
    · simp only [lookupA, if_neg hpk] at h
      simp [setA, hpk, ih h]

theorem nodup_keys_setA {α : Type} (m : List (String × α)) (k : String) (v : α)
    (hnd : (m.map Prod.fst).Nodup) : ((setA m k v).map Prod.fst).Nodup := by
  cases h : lookupA m k with
  | some w =>
    rw [keys_setA_present m k v (by simp [h])]
    exact hnd
  | none =>
    rw [keys_setA_absent m k v h]
    rw [List.nodup_append]
    refine ⟨hnd, List.nodup_singleton k, ?_⟩
    intro a ha hb
    have : a = k := by simpa using hb
    exact (lookupA_eq_none_iff_keys m k).1 h (this ▸ ha)

theorem nodup_keys_eraseA {α : Type} (m : List (String × α)) (k : String)
    (hnd : (m.map Prod.fst).Nodup) : ((eraseA m k).map Prod.fst).Nodup := by
  have hs : List.Sublist (eraseA m k) m := List.filter_sublist m
  exact List.Nodup.sublist (List.Sublist.map Prod.fst hs) hnd

theorem mem_setA_self {α : Type} (m : List (String × α)) (k : String) (v : α) :
    (k, v) ∈ setA m k v := by
  induction m with
  | nil => simp [setA]
  | cons p rest ih =>
    by_cases hpk : p.1 = k
    · simp [setA, hpk]
    · simp [setA, hpk, ih]

theorem mem_setA_of_mem {α : Type} (m : List (String × α)) (k : String) (v : α)
    (p : String × α) (hp : p ∈ m) (hk : p.1 ≠ k) : p ∈ setA m k v := by
  induction m with
  | nil => simp at hp
  | cons q rest ih =>
    by_cases hq : q.1 = k
    · rcases List.mem_cons.1 hp with h | h
      · exact absurd (by rw [h]; exact hq) hk
      · simp only [setA, hq, if_pos rfl]
        exact List.mem_cons_of_mem _ h
    · rcases List.mem_cons.1 hp with h | h
      · simp only [setA, if_neg hq]
        exact h ▸ List.mem_cons_self _ _
      · simp only [setA, if_neg hq]
        exact List.mem_cons_of_mem _ (ih h)

theorem mem_setA_elim {α : Type} (m : List (String × α)) (k : String) (v : α)
    (hnd : (m.map Prod.fst).Nodup) (p : String × α) (hp : p ∈ setA m k v) :
    p = (k, v) ∨ (p ∈ m ∧ p.1 ≠ k) := by
  induction m with
  | nil => simp [setA] at hp; left; simp [hp]
  | cons q rest ih =>
    have hnd2 : q.1 ∉ rest.map Prod.fst ∧ (rest.map Prod.fst).Nodup := by
      rw [List.map_cons, List.nodup_cons] at hnd
      exact hnd
    by_cases hq : q.1 = k
    · simp only [setA, hq, if_pos rfl] at hp
      rcases List.mem_cons.1 hp with h | h
      · left; exact h
      · by_cases hpk : p.1 = k
        · exfalso
          have : p.1 ∈ rest.map Prod.fst := List.mem_map.2 ⟨p, h, rfl⟩
          rw [hpk, ← hq] at this
          exact hnd2.1 this
        · right; exact ⟨List.mem_cons_of_mem _ h, hpk⟩
    · simp only [setA, if_neg hq] at hp
      rcases List.mem_cons.1 hp with h | h
      · right
        refine ⟨h ▸ List.mem_cons_self q rest, ?_⟩
        rw [h]; exact hq
      · rcases ih hnd2.2 h with h2 | h2
        · left; exact h2
        · right; exact ⟨List.mem_cons_of_mem _ h2.1, h2.2⟩

/-! ### Collaborator lemmas -/

theorem lockW_ok_iff (w : Wallet) (pwd ct : String) (w2 : Wallet) :
    lockW w pwd ct = .ok w2 ↔
      pwd ≠ "" ∧ w.encrypted = false ∧
      w2 = { w with encrypted := true, password := pwd, cryptoType := ct } := by
  unfold lockW
  by_cases h1 : pwd = ""
  · simp [h1]
  · by_cases h2 : w.encrypted <;> simp [h1, h2, eq_comm]

theorem unlockW_ok_iff (w : Wallet) (pwd : String) (w2 : Wallet) :
    unlockW w pwd = .ok w2 ↔
      pwd ≠ "" ∧ w.encrypted = true ∧ pwd = w.password ∧
      w2 = { w with encrypted := false, password := "" } := by
  unfold unlockW
  by_cases h1 : pwd = ""
  · simp [h1]
  · rw [if_neg h1]
    by_cases h2 : w.encrypted
    · rw [if_neg (by simp [h2])]
      by_cases h3 : pwd = w.password
      · rw [if_pos h3]
        constructor
        · intro h4
          have h5 : { w with encrypted := false, password := "" } = w2 := by
            simpa using h4
          exact ⟨h1, by simp [h2], h3, h5.symm⟩
        · intro h4
          rw [h4.2.2.2]
      · rw [if_neg h3]
        simp [h1, h2, h3]
    · rw [if_pos (by simp [h2])]
      simp [h2]

theorem generateSkycoinAddresses_ok (w : Wallet) (num : Nat) (w2 : Wallet)
    (addrs : List String)
    (h : generateSkycoinAddresses w num = .ok (w2, addrs)) :
    w.encrypted = false ∧ w2 = { w with entries := w.entries ++ newEntries w num } := by
  unfold generateSkycoinAddresses at h
  by_cases h2 : w.encrypted
  · simp [h2] at h
  · rw [if_neg (by simp [h2])] at h
    have h4 := Except.ok.inj h
    have h5 : { w with entries := w.entries ++ newEntries w num } = w2 ∧
        (List.range num).map (fun i => deriveAddress w.coin w.seed (w.entries.length + i)) = addrs := by
      simpa [newEntries] using h4
    exact ⟨by simp [h2], h5.1.symm⟩

theorem firstAddr_append_entries (w : Wallet) (l : List Entry)
    (h : w.entries ≠ []) :
    firstAddr { w with entries := w.entries ++ l } = firstAddr w := by
  unfold firstAddr
  cases he : w.entries with
  | nil => exact absurd he h
  | cons e rest => simp [he]

theorem GuardUpdate_ok {α : Type} (w : Wallet) (pwd : String)
    (f : Wallet → Except Err (Wallet × α)) (w3 : Wallet) (a : α)
    (h : GuardUpdate w pwd f = .ok (w3, a)) :
    ∃ wu w2, unlockW w pwd = .ok wu ∧ f wu = .ok (w2, a) ∧
      lockW w2 pwd w.cryptoType = .ok w3 := by
  unfold GuardUpdate at h
  by_cases he : ¬ w.encrypted
  · rw [if_pos he] at h
    exact Except.noConfusion h
  · rw [if_neg he] at h
    cases hu : unlockW w pwd with
    | error e => simp [hu] at h
    | ok wu =>
      simp only [hu] at h
      cases hf : f wu with
      | error e => simp [hf] at h
      | ok pa =>
        rcases pa with ⟨w2, a2⟩
        simp only [hf] at h
        cases hl : lockW w2 pwd w.cryptoType with
        | error e => simp [hl] at h
        | ok w4 =>
          simp only [hl, Except.ok.injEq, Prod.mk.injEq] at h
          rcases h with ⟨rfl, rfl⟩
          exact ⟨wu, w2, rfl, hf, hl⟩

theorem GuardUpdate_ok_encrypted {α : Type} (w : Wallet) (pwd : String)
    (f : Wallet → Except Err (Wallet × α)) (w3 : Wallet) (a : α)
    (h : GuardUpdate w pwd f = .ok (w3, a)) : w3.encrypted = true := by
  rcases GuardUpdate_ok w pwd f w3 a h with ⟨wu, w2, _, _, hl⟩
  rcases (lockW_ok_iff w2 pwd w.cryptoType w3).1 hl with ⟨_, _, rfl⟩
  rfl

theorem NewWallet_ok (name : String) (o : Options) (now : Nat) (w2 : Wallet)
    (h : NewWallet name o now = .ok w2) :
    w2.filename = name ∧ w2.label = o.label ∧ w2.coin = o.coin ∧
      w2.cryptoType = o.cryptoType ∧ w2.timestamp = now ∧
      w2.walletType = WalletTypeDeterministic ∧
      w2.encrypted = o.encrypt ∧
      w2.entries = (List.range (if o.generateN = 0 then 1 else o.generateN)).map
        (fun i => { address := deriveAddress o.coin o.seed i }) := by
  unfold NewWallet at h
  by_cases he : o.encrypt
  · rw [if_pos he] at h
    rcases (lockW_ok_iff _ _ _ _).1 h with ⟨_, _, rfl⟩
    exact ⟨rfl, rfl, rfl, rfl, rfl, rfl, he.symm, rfl⟩
  · rw [if_neg he] at h
    have h2 : mkDeterministicWallet name o (if o.generateN = 0 then 1 else o.generateN) now = w2 := by
      simpa using h
    subst h2
    refine ⟨rfl, rfl, rfl, rfl, rfl, rfl, ?_, rfl⟩
    cases ho : o.encrypt
    · rfl
    · exact absurd ho he

theorem NewWalletScanAhead_ok (name : String) (o : Options) (extraScan now : Nat)
    (w2 : Wallet) (h : NewWalletScanAhead name o extraScan now = .ok w2) :
    w2.filename = name ∧
      w2.entries = (List.range ((if o.generateN = 0 then 1 else o.generateN) + extraScan)).map
        (fun i => { address := deriveAddress o.coin o.seed i }) := by
  unfold NewWalletScanAhead at h
  by_cases he : o.encrypt
  · rw [if_pos he] at h
    rcases (lockW_ok_iff _ _ _ _).1 h with ⟨_, _, rfl⟩
    exact ⟨rfl, rfl⟩
  · rw [if_neg he] at h
    have h2 : mkDeterministicWallet name o ((if o.generateN = 0 then 1 else o.generateN) + extraScan) now = w2 := by
      simpa using h
    subst h2
    exact ⟨rfl, rfl⟩

theorem firstAddr_range_map (w : Wallet) (coin seed : String) (n : Nat)
    (hn : 0 < n)
    (hw : w.entries = (List.range n).map
      (fun i => { address := deriveAddress coin seed i })) :
    firstAddr w = deriveAddress coin seed 0 := by
  rcases n with _ | k
  · exact absurd hn (by simp)
  · rw [List.range_succ_eq_map] at hw
    simp only [List.map_cons] at hw
    unfold firstAddr
    rw [hw]

/-! ### The registry invariant (§3 of the spec) -/

/-- Replacing the stored wallet `w` of id `wltID` by a wallet `w2` with the
same filename, same first address and non-empty entries preserves `Inv`. -/
theorem Inv_set (s : ServiceSt) (wltID : String) (w w2 : Wallet)
    (hInv : Inv s) (hlk : lookupA s.wallets wltID = some w)
    (hfn : w2.filename = w.filename) (hfa : firstAddr w2 = firstAddr w)
    (hne : w2.entries ≠ []) :
    Inv { s with wallets := setA s.wallets w2.filename w2 } := by
  obtain ⟨hnd1, hnd2, hfwd, hrev⟩ := hInv
  have hmem : (wltID, w) ∈ s.wallets := lookupA_mem _ _ _ hlk
  have hwid : w.filename = wltID := (hfwd _ hmem).1
  have hkey : w2.filename = wltID := hfn.trans hwid
  refine ⟨?_, hnd2, ?_, ?_⟩
  · exact nodup_keys_setA _ _ _ hnd1
  · intro p hp
    rcases mem_setA_elim _ _ _ hnd1 p hp with h | ⟨hpm, hpk⟩
    · subst h
      refine ⟨rfl, hne, ?_⟩
      rw [hfa]
      rw [hkey]
      exact (hfwd _ hmem).2.2
    · exact hfwd p hpm
  · intro q hq
    rcases hrev q hq with ⟨p, hpm, hp1, hp2⟩
    by_cases hpk : p.1 = w2.filename
    · have hp2w : p.2 = w := by
        have h6 := mem_lookupA s.wallets p hnd1 hpm
        rw [hpk, hkey, hlk] at h6
        exact (Option.some.inj h6).symm
      refine ⟨(w2.filename, w2), mem_setA_self _ _ _, ?_, ?_⟩
      · show w2.filename = q.2
        rw [← hpk]
        exact hp1
      · show firstAddr w2 = q.1
        rw [hfa, ← hp2w]
        exact hp2
    · exact ⟨p, mem_setA_of_mem _ _ _ p hpm hpk, hp1, hp2⟩

/-! ### Per-operation invariant preservation -/

theorem getWallet_ok_iff (s : ServiceSt) (wltID : String) (w : Wallet) :
    getWallet s wltID = .ok w ↔ lookupA s.wallets wltID = some w := by
  unfold getWallet
  cases h : lookupA s.wallets wltID <;> simp

theorem firstAddr_eq_of_entries (w w2 : Wallet) (h : w2.entries = w.entries) :
    firstAddr w2 = firstAddr w := by
  unfold firstAddr
  rw [h]

theorem firstAddr_entries_append (w w2 : Wallet) (l : List Entry)
    (h : w2.entries = w.entries ++ l) (hne : w.entries ≠ []) :
    firstAddr w2 = firstAddr w := by
  unfold firstAddr
  rw [h]
  cases he : w.entries with
  | nil => exact absurd he hne
  | cons e rest => simp

theorem NewWalletScanAhead_ok_ne_nil (name : String) (o : Options)
    (extraScan now : Nat) (w2 : Wallet)
    (h : NewWalletScanAhead name o extraScan now = .ok w2) : w2.entries ≠ [] := by
  rcases NewWalletScanAhead_ok name o extraScan now w2 h with ⟨_, he⟩
  rw [he]
  intro hc
  rw [List.map_eq_nil_iff, List.range_eq_nil] at hc
  by_cases hg : o.generateN = 0
  · rw [if_pos hg] at hc; omega
  · rw [if_neg hg] at hc; omega

theorem eraseA_append_self {α : Type} (m : List (String × α)) (k : String) (v : α)
    (h : lookupA m k = none) : eraseA (m ++ [(k, v)]) k = m := by
  unfold eraseA
  rw [List.filter_append]
  have h2 := eraseA_of_absent m k h
  unfold eraseA at h2
  rw [h2]
  simp

/-- Installing a brand-new wallet whose id and first address are both fresh
preserves `Inv` (the success path of `loadWallet`). -/
theorem Inv_create_install (s : ServiceSt) (w : Wallet)
    (hInv : Inv s) (hidx : lookupA s.firstAddrIDMap (firstAddr w) = none)
    (hwl : lookupA s.wallets w.filename = none) (hne : w.entries ≠ []) :
    Inv { s with wallets := s.wallets ++ [(w.filename, w)],
                 firstAddrIDMap := setA s.firstAddrIDMap (firstAddr w) w.filename } := by
  obtain ⟨hnd1, hnd2, hfwd, hrev⟩ := hInv
  refine ⟨?_, ?_, ?_, ?_⟩
  · rw [List.map_append]
    rw [List.nodup_append]
    refine ⟨hnd1, by simp, ?_⟩
    intro a ha hb
    have hak : a = w.filename := by simpa using hb
    exact (lookupA_eq_none_iff_keys _ _).1 hwl (hak ▸ ha)
  · exact nodup_keys_setA _ _ _ hnd2
  · intro p hp
    rcases List.mem_append.1 hp with h | h
    · obtain ⟨h1, h2, h3⟩ := hfwd p h
      refine ⟨h1, h2, ?_⟩
      rw [lookupA_setA]
      have hneq : firstAddr w ≠ firstAddr p.2 := by
        intro hc
        rw [← hc] at h3
        rw [hidx] at h3
        exact Option.noConfusion h3
      rw [if_neg hneq]
      exact h3
    · have hpw : p = (w.filename, w) := by simpa using h
      subst hpw
      refine ⟨rfl, hne, ?_⟩
      rw [lookupA_setA]
      rw [if_pos rfl]
  · intro q hq
    rcases mem_setA_elim _ _ _ hnd2 q hq with h | ⟨hqm, hqk⟩
    · subst h
      exact ⟨(w.filename, w), List.mem_append.2 (Or.inr (by simp)), rfl, rfl⟩
    · rcases hrev q hqm with ⟨p, hpm, hp1, hp2⟩
      exact ⟨p, List.mem_append.2 (Or.inl hpm), hp1, hp2⟩

theorem Inv_EncryptWallet (s : ServiceSt) (wltID pwd : String) (saveOk : Bool)
    (hInv : Inv s) : Inv (EncryptWallet s wltID pwd saveOk).1 := by
  unfold EncryptWallet
  split
  · exact hInv
  split
  · exact hInv
  rename_i w hg
  split
  · exact hInv
  split
  · exact hInv
  rename_i he w2 hl
  split
  · exact hInv
  rcases (lockW_ok_iff _ _ _ _).1 hl with ⟨_, _, rfl⟩
  have hlk := (getWallet_ok_iff s wltID w).1 hg
  have hne := (hInv.2.2.1 _ (lookupA_mem _ _ _ hlk)).2.1
  exact Inv_set s wltID w _ hInv hlk rfl rfl hne

theorem Inv_DecryptWallet (s : ServiceSt) (wltID pwd : String) (saveOk : Bool)
    (hInv : Inv s) : Inv (DecryptWallet s wltID pwd saveOk).1 := by
  unfold DecryptWallet
  split
  · exact hInv
  split
  · exact hInv
  rename_i w hg
  split
  · exact hInv
  split
  · exact hInv
  rename_i he w2 hl
  split
  · exact hInv
  rcases (unlockW_ok_iff _ _ _).1 hl with ⟨_, _, _, rfl⟩
  have hlk := (getWallet_ok_iff s wltID w).1 hg
  have hne := (hInv.2.2.1 _ (lookupA_mem _ _ _ hlk)).2.1
  exact Inv_set s wltID w _ hInv hlk rfl rfl hne

theorem Inv_UpdateWalletLabel (s : ServiceSt) (wltID label : String) (saveOk : Bool)
    (hInv : Inv s) : Inv (UpdateWalletLabel s wltID label saveOk).1 := by
  unfold UpdateWalletLabel
  split
  · exact hInv
  split
  · exact hInv
  rename_i w hg
  split
  · exact hInv
  have hlk := (getWallet_ok_iff s wltID w).1 hg
  have hne := (hInv.2.2.1 _ (lookupA_mem _ _ _ hlk)).2.1
  exact Inv_set s wltID w (setLabel w label) hInv hlk rfl rfl hne

theorem entries_range_ne_nil (w : Wallet) (coin seed : String) (n : Nat) (hn : 0 < n)
    (hw : w.entries = (List.range n).map (fun i => { address := deriveAddress coin seed i })) :
    w.entries ≠ [] := by
  rw [hw]
  intro hc
  rw [List.map_eq_nil_iff, List.range_eq_nil] at hc
  omega

theorem walletsAdd_ok (m : List (String × Wallet)) (w : Wallet)
    (ws1 : List (String × Wallet)) (h : walletsAdd m w = .ok ws1) :
    lookupA m w.filename = none ∧ ws1 = m ++ [(w.filename, w)] := by
  unfold walletsAdd at h
  cases hl : lookupA m w.filename with
  | some x => simp [hl] at h
  | none =>
    simp only [hl, Except.ok.injEq] at h
    exact ⟨rfl, h.symm⟩

/-- Removing an absent id leaves the state invariant-preserving. -/
theorem Inv_erase_absent (s : ServiceSt) (wltID : String) (hInv : Inv s)
    (hlw : lookupA s.wallets wltID = none) :
    Inv { s with wallets := eraseA s.wallets wltID } := by
  rw [eraseA_of_absent _ _ hlw]
  exact hInv

/-- Removing a present wallet together with its first-address index entry
preserves `Inv` (the success path of `UnloadWallet`). -/
theorem Inv_erase_present (s : ServiceSt) (wltID : String) (wlt : Wallet)
    (e : Entry) (rest : List Entry) (hInv : Inv s)
    (hlw : lookupA s.wallets wltID = some wlt) (hent : wlt.entries = e :: rest) :
    Inv { s with wallets := eraseA s.wallets wltID,
                 firstAddrIDMap := eraseA s.firstAddrIDMap e.address } := by
  obtain ⟨hnd1, hnd2, hfwd, hrev⟩ := hInv
  have hmem : (wltID, wlt) ∈ s.wallets := lookupA_mem _ _ _ hlw
  have hfa_wlt : firstAddr wlt = e.address := by
    unfold firstAddr
    rw [hent]
  have hidx : lookupA s.firstAddrIDMap e.address = some wltID := by
    rw [← hfa_wlt]
    exact (hfwd _ hmem).2.2
  refine ⟨nodup_keys_eraseA _ _ hnd1, nodup_keys_eraseA _ _ hnd2, ?_, ?_⟩
  · intro p hp
    rcases (mem_eraseA _ _ _).1 hp with ⟨hpm, hpk⟩
    obtain ⟨h1, h2, h3⟩ := hfwd p hpm
    refine ⟨h1, h2, ?_⟩
    have hne : e.address ≠ firstAddr p.2 := by
      intro hc
      rw [← hc] at h3
      rw [hidx] at h3
      exact hpk (Option.some.inj h3).symm
    rw [lookupA_eraseA_ne _ _ _ hne]
    exact h3
  · intro q hq
    rcases (mem_eraseA _ _ _).1 hq with ⟨hqm, hqk⟩
    rcases hrev q hqm with ⟨p, hpm, hp1, hp2⟩
    have hpne : p.1 ≠ wltID := by
      intro hc
      have h6 := mem_lookupA s.wallets p hnd1 hpm
      rw [hc, hlw] at h6
      have h7 : p.2 = wlt := (Option.some.inj h6).symm
      rw [h7, hfa_wlt] at hp2
      exact hqk hp2.symm
    exact ⟨p, (mem_eraseA _ _ _).2 ⟨hpm, hpne⟩, hp1, hp2⟩

theorem Inv_UnloadWallet (s : ServiceSt) (wltID : String) (hInv : Inv s) :
    Inv (UnloadWallet s wltID).1 := by
  unfold UnloadWallet
  split
  · exact hInv
  cases hlw : lookupA s.wallets wltID with
  | none => exact Inv_erase_absent s wltID hInv hlw
  | some wlt =>
    simp only [hlw]
    cases hent : wlt.entries with
    | nil =>
      have hne := (hInv.2.2.1 _ (lookupA_mem _ _ _ hlw)).2.1
      exact absurd hent hne
    | cons e rest => exact Inv_erase_present s wltID wlt e rest hInv hlw hent

theorem Inv_loadWallet (s : ServiceSt) (name : String) (o : Options)
    (extraScan now : Nat) (saveOk : Bool) (hInv : Inv s) :
    Inv (loadWallet s name o extraScan now saveOk).1 := by
  simp only [loadWallet]
  cases hn : NewWalletScanAhead name
      (if o.encrypt = true then { o with cryptoType := s.config.cryptoType } else o)
      extraScan now with
  | error e => exact hInv
  | ok w =>
    simp only [hn]
    cases hidx : lookupA s.firstAddrIDMap (firstAddr w) with
    | some x => exact hInv
    | none =>
      simp only [hidx]
      cases hadd : walletsAdd s.wallets w with
      | error e => exact hInv
      | ok ws1 =>
        simp only [hadd]
        rcases walletsAdd_ok _ _ _ hadd with ⟨hfresh, rfl⟩
        have hne := NewWalletScanAhead_ok_ne_nil _ _ _ _ _ hn
        cases saveOk with
        | false =>
          show Inv { s with wallets := eraseA (s.wallets ++ [(w.filename, w)]) w.filename }
          rw [eraseA_append_self _ _ _ hfresh]
          exact hInv
        | true =>
          exact Inv_create_install s w hInv hidx hfresh hne

theorem Inv_CreateWallet (s : ServiceSt) (wltName : String) (o : Options)
    (extraScan now : Nat) (candidates : List String) (saveOk : Bool) (hInv : Inv s) :
    Inv (CreateWallet s wltName o extraScan now candidates saveOk).1 := by
  unfold CreateWallet
  split
  · exact hInv
  exact Inv_loadWallet s _ o extraScan now saveOk hInv

theorem Inv_NewAddresses (s : ServiceSt) (wltID pwd : String) (num : Nat)
    (saveOk : Bool) (hInv : Inv s) : Inv (NewAddresses s wltID pwd num saveOk).1 := by
  unfold NewAddresses
  split
  · exact hInv
  split
  · exact hInv
  rename_i w hg
  have hlk := (getWallet_ok_iff s wltID w).1 hg
  have hne : w.entries ≠ [] := (hInv.2.2.1 _ (lookupA_mem _ _ _ hlk)).2.1
  by_cases he : w.encrypted = true
  · rw [if_pos he]
    cases hgu : GuardUpdate w pwd (fun wlt => generateSkycoinAddresses wlt num) with
    | error e => exact hInv
    | ok pr =>
      rcases pr with ⟨w2, addrs⟩
      cases saveOk with
      | false => exact hInv
      | true =>
        show Inv { s with wallets := setA s.wallets w2.filename w2 }
        rcases GuardUpdate_ok _ _ _ _ _ hgu with ⟨wu, wmid, hu, hf, hl⟩
        rcases (unlockW_ok_iff _ _ _).1 hu with ⟨_, _, _, rfl⟩
        rcases generateSkycoinAddresses_ok _ _ _ _ hf with ⟨_, rfl⟩
        rcases (lockW_ok_iff _ _ _ _).1 hl with ⟨_, _, rfl⟩
        refine Inv_set s wltID w _ hInv hlk rfl ?_ ?_
        · exact firstAddr_entries_append w _ _ rfl hne
        · intro hc
          exact hne (List.append_eq_nil.1 hc).1
  · rw [if_neg he]
    by_cases hp : pwd = ""
    · rw [if_neg (by simp [hp])]
      cases hgen : generateSkycoinAddresses w num with
      | error e => exact hInv
      | ok pr =>
        rcases pr with ⟨w2, addrs⟩
        cases saveOk with
        | false => exact hInv
        | true =>
          show Inv { s with wallets := setA s.wallets w2.filename w2 }
          rcases generateSkycoinAddresses_ok _ _ _ _ hgen with ⟨_, rfl⟩
          refine Inv_set s wltID w _ hInv hlk rfl ?_ ?_
          · exact firstAddr_entries_append w _ _ rfl hne
          · intro hc
            exact hne (List.append_eq_nil.1 hc).1
    · rw [if_pos hp]
      exact hInv

theorem Inv_Update (s : ServiceSt) (wltID : String)
    (f : Wallet → Except Err Wallet) (saveOk : Bool)
    (hInv : Inv s) (hcb : CallbackOK f) : Inv (Update s wltID f saveOk).1 := by
  unfold Update
  split
  · exact hInv
  split
  · exact hInv
  rename_i w hg
  split
  · exact hInv
  rename_i w2 hf
  split
  · exact hInv
  have hlk := (getWallet_ok_iff s wltID w).1 hg
  have hne := (hInv.2.2.1 _ (lookupA_mem _ _ _ hlk)).2.1
  obtain ⟨h1, h2, h3⟩ := hcb w w2 hf
  exact Inv_set s wltID w w2 hInv hlk h1 h2 h3

theorem updateSecrets_wrapper_ok (f : Wallet → Except Err Wallet)
    (w wmid : Wallet) (u : Unit)
    (h : (match f w with
          | Except.error e => Except.error e
          | Except.ok w3 => Except.ok (w3, ())) = Except.ok (wmid, u)) :
    f w = .ok wmid := by
  cases hfw : f w with
  | error e => rw [hfw] at h; exact Except.noConfusion h
  | ok wx =>
    rw [hfw] at h
    have h2 : wx = wmid := by
      have h3 : (Except.ok (wx, ()) : Except Err (Wallet × Unit)) = Except.ok (wmid, u) := h
      simpa using h3
    rw [h2]

theorem Inv_UpdateSecrets (s : ServiceSt) (wltID pwd : String)
    (f : Wallet → Except Err Wallet) (saveOk : Bool)
    (hInv : Inv s) (hcb : CallbackOK f) : Inv (UpdateSecrets s wltID pwd f saveOk).1 := by
  unfold UpdateSecrets
  split
  · exact hInv
  split
  · exact hInv
  rename_i w hg
  have hlk := (getWallet_ok_iff s wltID w).1 hg
  have hne : w.entries ≠ [] := (hInv.2.2.1 _ (lookupA_mem _ _ _ hlk)).2.1
  by_cases he : w.encrypted = true
  · rw [if_pos he]
    cases hgu : GuardUpdate w pwd (fun wlt =>
        match f wlt with
        | .error e => .error e
        | .ok w3 => .ok (w3, ())) with
    | error e => exact hInv
    | ok pr =>
      rcases pr with ⟨wmid2, u⟩
      cases saveOk with
      | false => exact hInv
      | true =>
        show Inv { s with wallets := setA s.wallets wmid2.filename wmid2 }
        rcases GuardUpdate_ok _ _ _ _ _ hgu with ⟨wu, wmid, hu, hf2, hl⟩
        rcases (unlockW_ok_iff _ _ _).1 hu with ⟨_, _, _, rfl⟩
        have hmid := updateSecrets_wrapper_ok f _ _ _ hf2
        rcases (lockW_ok_iff _ _ _ _).1 hl with ⟨_, _, rfl⟩
        obtain ⟨h1, h2, h3⟩ := hcb _ _ hmid
        exact Inv_set s wltID w _ hInv hlk h1 h2 h3
  · rw [if_neg he]
    by_cases hp : pwd = ""
    · rw [if_neg (by simp [hp])]
      cases hstep : f w with
      | error e => exact hInv
      | ok w2 =>
        cases saveOk with
        | false => exact hInv
        | true =>
          show Inv { s with wallets := setA s.wallets w2.filename w2 }
          obtain ⟨h1, h2, h3⟩ := hcb w w2 hstep
          exact Inv_set s wltID w w2 hInv hlk h1 h2 h3
    · rw [if_pos hp]
      exact hInv

theorem Inv_RecoverWallet (s : ServiceSt) (wltName seed pwd : String)
    (now : Nat) (saveOk : Bool) (hInv : Inv s) :
    Inv (RecoverWallet s wltName seed pwd now saveOk).1 := by
  unfold RecoverWallet
  split
  · exact hInv
  split
  · exact hInv
  rename_i w hg
  split
  · exact hInv
  split
  · exact hInv
  split
  · exact hInv
  rename_i e0 rest hent
  split
  · exact hInv
  rename_i haddr
  split
  · exact hInv
  rename_i w2a hnw
  split
  · exact hInv
  have hlk := (getWallet_ok_iff s wltName w).1 hg
  have hwfn : w.filename = wltName := (hInv.2.2.1 _ (lookupA_mem _ _ _ hlk)).1
  obtain ⟨hw1, hw2, hw3, hw4, hw5, hw6, hw7, hw8⟩ := NewWallet_ok _ _ _ _ hnw
  have heq : deriveAddress w.coin seed 0 = e0.address := not_not.1 haddr
  have hlen : w.entries.length ≠ 0 := by
    rw [hent]
    simp
  have hn2 : (if w.entries.length = 0 then 1 else w.entries.length) = w.entries.length := by
    rw [if_neg hlen]
  have hfa2a : firstAddr w2a = deriveAddress w.coin seed 0 := by
    refine firstAddr_range_map w2a w.coin seed w.entries.length ?_ ?_
    · omega
    · rw [hw8, hn2]
  have hfirst : firstAddr w = e0.address := by
    unfold firstAddr
    rw [hent]
  refine Inv_set s wltName w { w2a with timestamp := w.timestamp } hInv hlk ?_ ?_ ?_
  · show w2a.filename = w.filename
    rw [hw1, hwfn]
  · show firstAddr { w2a with timestamp := w.timestamp } = firstAddr w
    have h9 : firstAddr { w2a with timestamp := w.timestamp } = firstAddr w2a :=
      firstAddr_eq_of_entries w2a _ rfl
    rw [h9, hfa2a, heq, hfirst]
  · show w2a.entries ≠ []
    refine entries_range_ne_nil w2a w.coin seed w.entries.length ?_ ?_
    · omega
    · rw [hw8, hn2]

/-! ### Initialization establishes the invariant -/

theorem mem_setA_weak {α : Type} (m : List (String × α)) (k : String) (v : α)
    (p : String × α) (hp : p ∈ setA m k v) : p = (k, v) ∨ p ∈ m := by
  induction m with
  | nil => simp [setA] at hp; exact Or.inl (by simp [hp])
  | cons q rest ih =>
    by_cases hq : q.1 = k
    · simp only [setA, hq, if_pos rfl] at hp
      rcases List.mem_cons.1 hp with h | h
      · exact Or.inl h
      · exact Or.inr (List.mem_cons_of_mem _ h)
    · simp only [setA, if_neg hq] at hp
      rcases List.mem_cons.1 hp with h | h
      · exact Or.inr (h ▸ List.mem_cons_self _ _)
      · rcases ih h with h2 | h2
        · exact Or.inl h2
        · exact Or.inr (List.mem_cons_of_mem _ h2)

theorem lookupA_buildIndex_not_mem (l : List (String × Wallet))
    (m : List (String × String)) (a : String)
    (h : a ∉ l.map (fun p => firstAddr p.2)) :
    lookupA (buildIndex l m) a = lookupA m a := by
  induction l generalizing m with
  | nil => rfl
  | cons p rest ih =>
    have h1 : firstAddr p.2 ≠ a := by
      intro hc; exact h (by simp [hc])
    have h2 : a ∉ rest.map (fun p => firstAddr p.2) := by
      intro hc; exact h (by simp [hc])
    show lookupA (buildIndex rest (setA m (firstAddr p.2) p.1)) a = lookupA m a
    rw [ih _ h2, lookupA_setA, if_neg h1]

theorem lookupA_buildIndex_mem (l : List (String × Wallet))
    (m : List (String × String))
    (hnd : (l.map (fun p => firstAddr p.2)).Nodup) (p : String × Wallet)
    (hp : p ∈ l) :
    lookupA (buildIndex l m) (firstAddr p.2) = some p.1 := by
  induction l generalizing m with
  | nil => simp at hp
  | cons q rest ih =>
    have hnd2 : firstAddr q.2 ∉ rest.map (fun p => firstAddr p.2) ∧
        (rest.map (fun p => firstAddr p.2)).Nodup := by
      rw [List.map_cons, List.nodup_cons] at hnd
      exact hnd
    rcases List.mem_cons.1 hp with h | h
    · subst h
      show lookupA (buildIndex rest (setA m (firstAddr p.2) p.1)) (firstAddr p.2) = some p.1
      rw [lookupA_buildIndex_not_mem rest _ _ hnd2.1, lookupA_setA, if_pos rfl]
    · exact ih _ hnd2.2 h

theorem mem_buildIndex (l : List (String × Wallet)) (m : List (String × String))
    (q : String × String) (hq : q ∈ buildIndex l m) :
    (∃ p ∈ l, q = (firstAddr p.2, p.1)) ∨ q ∈ m := by
  induction l generalizing m with
  | nil => exact Or.inr hq
  | cons p rest ih =>
    rcases ih _ hq with ⟨p2, hp2, he⟩ | hm
    · exact Or.inl ⟨p2, List.mem_cons_of_mem _ hp2, he⟩
    · rcases mem_setA_weak _ _ _ _ hm with h | h
      · exact Or.inl ⟨p, List.mem_cons_self _ _, h⟩
      · exact Or.inr h

theorem keys_buildIndex (l : List (String × Wallet)) (m : List (String × String))
    (hfresh : ∀ p ∈ l, lookupA m (firstAddr p.2) = none)
    (hnd : (l.map (fun p => firstAddr p.2)).Nodup) :
    (buildIndex l m).map Prod.fst = m.map Prod.fst ++ l.map (fun p => firstAddr p.2) := by
  induction l generalizing m with
  | nil => simp [buildIndex]
  | cons p rest ih =>
    have hnd2 : firstAddr p.2 ∉ rest.map (fun p => firstAddr p.2) ∧
        (rest.map (fun p => firstAddr p.2)).Nodup := by
      rw [List.map_cons, List.nodup_cons] at hnd
      exact hnd
    have hfp : lookupA m (firstAddr p.2) = none := hfresh p (List.mem_cons_self _ _)
    show (buildIndex rest (setA m (firstAddr p.2) p.1)).map Prod.fst = _
    rw [ih _ ?fresh hnd2.2]
    case fresh =>
      intro r hr
      rw [lookupA_setA]
      rw [if_neg ?_]
      · exact hfresh r (List.mem_cons_of_mem _ hr)
      · intro hc
        exact hnd2.1 (hc ▸ List.mem_map.2 ⟨r, hr, rfl⟩)
    rw [keys_setA_absent _ _ _ hfp]
    simp

theorem hasDupAddrs_eq_false_iff (l : List String) :
    hasDupAddrs l = false ↔ l.Nodup := by
  induction l with
  | nil => simp [hasDupAddrs]
  | cons a rest ih =>
    unfold hasDupAddrs
    by_cases hm : a ∈ rest
    · simp [hm]
    · simp [hm, ih]

theorem containsEmpty_eq_false (wlts : List (String × Wallet))
    (h : containsEmpty wlts = false) : ∀ p ∈ wlts, p.2.entries ≠ [] := by
  intro p hp hc
  unfold containsEmpty at h
  rw [List.any_eq_false] at h
  have h2 := h p hp
  rw [hc] at h2
  simp at h2

theorem Inv_NewService (c : Config) (loaded : List Wallet) (s0 : ServiceSt)
    (hnodup : (loaded.map Wallet.filename).Nodup)
    (h : NewService c loaded = .ok s0) : Inv s0 := by
  simp only [NewService] at h
  by_cases hapi : ¬ c.enableWalletAPI
  · rw [if_pos hapi] at h
    have h2 : ({ wallets := [], firstAddrIDMap := [], config := c } : ServiceSt) = s0 := by
      simpa using h
    subst h2
    refine ⟨by simp, by simp, by simp [lookupA], by simp [lookupA]⟩
  · rw [if_neg hapi] at h
    cases hd : hasDupAddrs ((LoadWallets loaded).map (fun p => firstAddr p.2)) with
    | true => rw [hd] at h; simp at h
    | false =>
      rw [hd] at h
      cases hce : containsEmpty (LoadWallets loaded) with
      | true => rw [hce] at h; simp at h
      | false =>
        rw [hce] at h
        simp only [if_neg, Bool.false_eq_true, ite_false, Except.ok.injEq] at h
        have hs0 : s0 = setWallets { wallets := [], firstAddrIDMap := [], config := c }
            (LoadWallets loaded) := h.symm
        subst hs0
        have hkeys : (LoadWallets loaded).map Prod.fst = loaded.map Wallet.filename := by
          unfold LoadWallets
          rw [List.map_map]
          rfl
        have haddrs : ((LoadWallets loaded).map (fun p => firstAddr p.2)).Nodup :=
          (hasDupAddrs_eq_false_iff _).1 hd
        have hne := containsEmpty_eq_false _ hce
        refine ⟨?_, ?_, ?_, ?_⟩
        · show ((LoadWallets loaded).map Prod.fst).Nodup
          rw [hkeys]
          exact hnodup
        · show ((buildIndex (LoadWallets loaded) []).map Prod.fst).Nodup
          rw [keys_buildIndex (LoadWallets loaded) [] (fun p hp => rfl) haddrs]
          simpa using haddrs
        · intro p hp
          refine ⟨?_, hne p hp, ?_⟩
          · show p.2.filename = p.1
            unfold LoadWallets at hp
            rcases List.mem_map.1 hp with ⟨w, hw, hwp⟩
            rw [← hwp]
          · show lookupA (buildIndex (LoadWallets loaded) []) (firstAddr p.2) = some p.1
            exact lookupA_buildIndex_mem _ _ haddrs p hp
        · intro q hq
          rcases mem_buildIndex _ _ q hq with ⟨p, hp, he⟩ | hm
          · refine ⟨p, hp, ?_, ?_⟩
            · rw [he]
            · rw [he]
          · simp at hm

/-! ### Reachability -/

theorem Inv_Step (P : (Wallet → Except Err Wallet) → Prop)
    (hP : ∀ f, P f → CallbackOK f) (s s2 : ServiceSt)
    (hInv : Inv s) (h : Step P s s2) : Inv s2 := by
  cases h with
  | create wltName o extraScan now candidates saveOk =>
    exact Inv_CreateWallet s wltName o extraScan now candidates saveOk hInv
  | encrypt wltID pwd saveOk => exact Inv_EncryptWallet s wltID pwd saveOk hInv
  | decrypt wltID pwd saveOk => exact Inv_DecryptWallet s wltID pwd saveOk hInv
  | newAddresses wltID pwd num saveOk => exact Inv_NewAddresses s wltID pwd num saveOk hInv
  | updateLabel wltID label saveOk => exact Inv_UpdateWalletLabel s wltID label saveOk hInv
  | unload wltID => exact Inv_UnloadWallet s wltID hInv
  | updateSecrets wltID pwd f saveOk hf =>
    exact Inv_UpdateSecrets s wltID pwd f saveOk hInv (hP f hf)
  | update wltID f saveOk hf => exact Inv_Update s wltID f saveOk hInv (hP f hf)
  | recover wltName seed pwd now saveOk =>
    exact Inv_RecoverWallet s wltName seed pwd now saveOk hInv

theorem Inv_Reach (P : (Wallet → Except Err Wallet) → Prop)
    (hP : ∀ f, P f → CallbackOK f) (s s2 : ServiceSt)
    (hInv : Inv s) (h : Reach P s s2) : Inv s2 := by
  induction h with
  | refl => exact hInv
  | tail t u hr hs ih => exact Inv_Step P hP t u ih hs

/-! ### Claim theorems -/

/-- C1: for every wallet id and every mutating operation (EncryptWallet,
DecryptWallet, NewAddresses, UpdateWalletLabel, UpdateSecrets, Update,
RecoverWallet), when the persistence step fails the operation leaves the
in-memory registry state (wallets map and first-address index) exactly
unchanged, and it either returns the save error itself or fails before
reaching the save step, behaving identically to the successful-save run. -/
theorem C1_save_failure_rollback (s : ServiceSt) (wltID pwd label seed : String)
    (num now : Nat) (f : Wallet → Except Err Wallet) :
    ((EncryptWallet s wltID pwd false).1 = s ∧
      (EncryptWallet s wltID pwd false = (s, .error .saveFailed) ∨
        EncryptWallet s wltID pwd false = EncryptWallet s wltID pwd true)) ∧
    ((DecryptWallet s wltID pwd false).1 = s ∧
      (DecryptWallet s wltID pwd false = (s, .error .saveFailed) ∨
        DecryptWallet s wltID pwd false = DecryptWallet s wltID pwd true)) ∧
    ((NewAddresses s wltID pwd num false).1 = s ∧
      (NewAddresses s wltID pwd num false = (s, .error .saveFailed) ∨
        NewAddresses s wltID pwd num false = NewAddresses s wltID pwd num true)) ∧
    ((UpdateWalletLabel s wltID label false).1 = s ∧
      (UpdateWalletLabel s wltID label false = (s, .error .saveFailed) ∨
        UpdateWalletLabel s wltID label false = UpdateWalletLabel s wltID label true)) ∧
    ((UpdateSecrets s wltID pwd f false).1 = s ∧
      (UpdateSecrets s wltID pwd f false = (s, .error .saveFailed) ∨
        UpdateSecrets s wltID pwd f false = UpdateSecrets s wltID pwd f true)) ∧
    ((Update s wltID f false).1 = s ∧
      (Update s wltID f false = (s, .error .saveFailed) ∨
        Update s wltID f false = Update s wltID f true)) ∧
    ((RecoverWallet s wltID seed pwd now false).1 = s ∧
      (RecoverWallet s wltID seed pwd now false = (s, .error .saveFailed) ∨
        RecoverWallet s wltID seed pwd now false = RecoverWallet s wltID seed pwd now true)) := by
  refine ⟨⟨?_, ?_⟩, ⟨?_, ?_⟩, ⟨?_, ?_⟩, ⟨?_, ?_⟩, ⟨?_, ?_⟩, ⟨?_, ?_⟩, ⟨?_, ?_⟩⟩
  all_goals simp only [EncryptWallet, DecryptWallet, NewAddresses, UpdateWalletLabel,
    UpdateSecrets, Update, RecoverWallet]
  all_goals repeat' split
  all_goals simp_all [save]

/-! Concrete fixtures used by the C2 counterexample and witness. -/

/-- C2 (counterexample): the claim as stated is false.  From a successfully
initialized registry, a single `Update` operation whose caller-supplied
callback moves the wallet's first address reaches a state in which the
first-address index still holds the stale old address and has no entry for
the wallet's current first address, so the stated invariant fails. -/
theorem C2_counterexample :
    NewService cEx [wEx] = .ok s0Ex ∧
    Reach (fun _ => True) s0Ex s1Ex ∧
    lookupA s1Ex.wallets "w1.wlt" = some { wEx with entries := [{ address := "elsewhere" }] } ∧
    lookupA s1Ex.firstAddrIDMap "elsewhere" = none ∧
    lookupA s1Ex.firstAddrIDMap "skycoin:s1:0" = some "w1.wlt" ∧
    ¬ Inv s1Ex := by
  refine ⟨rfl, ?_, rfl, rfl, rfl, by decide⟩
  exact Reach.tail _ _ _ (Reach.refl s0Ex)
    (Step.update s0Ex "w1.wlt" fBad true trivial)

/-- C2 (amended): in every registry state reachable from a successfully
initialized registry by any sequence of operations in which the
caller-supplied callbacks of `Update`/`UpdateSecrets` preserve the wallet's
filename and first entry's address and keep the entries non-empty (as all
of the service's own callbacks do), the first-address index maps each
wallet's first entry's address to its id and contains no other entries. -/
theorem C2_index_invariant (c : Config) (loaded : List Wallet) (s0 s : ServiceSt)
    (hnodup : (loaded.map Wallet.filename).Nodup)
    (hinit : NewService c loaded = .ok s0)
    (hreach : Reach CallbackOK s0 s) : Inv s :=
  Inv_Reach CallbackOK (fun _ h => h) s0 s
    (Inv_NewService c loaded s0 hnodup hinit) hreach

/-- C2 (witness): the amended invariant theorem applied to a concrete
initialized registry after a concrete `UnloadWallet` step. -/
theorem C2_index_invariant_witness :
    ([wEx].map Wallet.filename).Nodup ∧ Inv (UnloadWallet s0Ex "w1.wlt").1 :=
  ⟨by decide,
    C2_index_invariant cEx [wEx] s0Ex (UnloadWallet s0Ex "w1.wlt").1 (by decide) rfl
      (Reach.tail _ _ _ (Reach.refl s0Ex) (Step.unload s0Ex "w1.wlt"))⟩

/-- C3: calling CreateWallet when a stored wallet already owns the first
address derived from the new wallet's seed fails with `SeedAlreadyUsed` and
returns the registry state exactly unchanged (same wallet count, same
wallets map, same first-address index). -/
theorem C3_duplicate_seed_rejected (s : ServiceSt) (wltName : String) (o : Options)
    (extraScan now : Nat) (candidates : List String) (saveOk : Bool)
    (wid : String) (w0 w : Wallet)
    (hapi : s.config.enableWalletAPI = true)
    (hInv : Inv s)
    (hmem : lookupA s.wallets wid = some w0)
    (hname : wltName ≠ "")
    (hw : NewWalletScanAhead wltName
        (if o.encrypt = true then { o with cryptoType := s.config.cryptoType } else o)
        extraScan now = .ok w)
    (hfa : firstAddr w = firstAddr w0) :
    CreateWallet s wltName o extraScan now candidates saveOk = (s, .error .seedUsed) := by
  have hidx : lookupA s.firstAddrIDMap (firstAddr w0) = some wid :=
    (hInv.2.2.1 _ (lookupA_mem _ _ _ hmem)).2.2
  unfold CreateWallet
  rw [if_neg (by simp [hapi]), if_neg hname]
  simp only [loadWallet, hw, hfa, hidx]

/-- C3 (witness): concrete duplicate-seed creation attempt. -/
theorem C3_witness :
    CreateWallet s0Ex "w2.wlt" oEx 0 0 [] true = (s0Ex, .error .seedUsed) :=
  C3_duplicate_seed_rejected s0Ex "w2.wlt" oEx 0 0 [] true "w1.wlt" wEx _
    rfl (by decide) rfl (by decide) rfl rfl

/-- C4: when the persistence step of CreateWallet fails after the new
wallet was inserted, the operation returns the save error, the state is
exactly the pre-call state, the new id is absent from the wallets map
(hence from GetWallets) and the new first address is absent from the
first-address index. -/
theorem C4_create_rollback (s : ServiceSt) (wltName : String) (o : Options)
    (extraScan now : Nat) (candidates : List String) (w : Wallet)
    (hapi : s.config.enableWalletAPI = true)
    (hname : wltName ≠ "")
    (hw : NewWalletScanAhead wltName
        (if o.encrypt = true then { o with cryptoType := s.config.cryptoType } else o)
        extraScan now = .ok w)
    (hidx : lookupA s.firstAddrIDMap (firstAddr w) = none)
    (hfresh : lookupA s.wallets w.filename = none) :
    CreateWallet s wltName o extraScan now candidates false = (s, .error .saveFailed) ∧
    lookupA (CreateWallet s wltName o extraScan now candidates false).1.wallets
      w.filename = none ∧
    lookupA (CreateWallet s wltName o extraScan now candidates false).1.firstAddrIDMap
      (firstAddr w) = none ∧
    (GetWallets (CreateWallet s wltName o extraScan now candidates false).1).2 =
      .ok s.wallets := by
  have hmain : CreateWallet s wltName o extraScan now candidates false =
      (s, .error .saveFailed) := by
    unfold CreateWallet
    rw [if_neg (by simp [hapi]), if_neg hname]
    simp only [loadWallet, hw, hidx, walletsAdd, hfresh, save_false]
    rw [eraseA_append_self _ _ _ hfresh]
  refine ⟨hmain, ?_, ?_, ?_⟩
  · rw [hmain]
    exact hfresh
  · rw [hmain]
    exact hidx
  · rw [hmain]
    unfold GetWallets
    rw [if_neg (by simp [hapi])]

/-- C4 (witness): concrete creation attempt whose save fails. -/
theorem C4_witness :
    CreateWallet s0Ex "w2.wlt" oEx2 0 0 [] false = (s0Ex, .error .saveFailed) :=
  (C4_create_rollback s0Ex "w2.wlt" oEx2 0 0 [] _ rfl (by decide) rfl rfl rfl).1

/-- C5: RecoverWallet on an existing, encrypted, deterministic wallet with
a seed deriving a different first address fails with `WrongRecoverySeed`
and returns the registry state exactly unchanged. -/
theorem C5_wrong_recovery_seed (s : ServiceSt) (wltName seed pwd : String)
    (now : Nat) (saveOk : Bool) (w : Wallet) (e0 : Entry) (rest : List Entry)
    (hapi : s.config.enableWalletAPI = true)
    (hlk : lookupA s.wallets wltName = some w)
    (henc : w.encrypted = true)
    (htype : w.walletType = WalletTypeDeterministic)
    (hent : w.entries = e0 :: rest)
    (hmm : deriveAddress w.coin seed 0 ≠ e0.address) :
    RecoverWallet s wltName seed pwd now saveOk = (s, .error .recoverSeedWrong) := by
  unfold RecoverWallet
  rw [if_neg (by simp [hapi])]
  have hg : getWallet s wltName = .ok w := (getWallet_ok_iff _ _ _).2 hlk
  simp only [hg]
  rw [if_neg (by simp [henc]), if_neg (by simp [htype])]
  simp only [hent]
  rw [if_pos hmm]

/-- C5 (witness): concrete recovery attempt with a wrong seed. -/
theorem C5_witness :
    RecoverWallet sEnc "we.wlt" "other" "np" 5 true =
      (sEnc, .error .recoverSeedWrong) :=
  C5_wrong_recovery_seed sEnc "we.wlt" "other" "np" 5 true wEnc
    { address := "skycoin:s9:0" } [] rfl rfl rfl rfl rfl (by decide)

theorem NewWallet_ok_total (name : String) (o : Options) (now : Nat)
    (h : o.encrypt = true → o.password ≠ "") :
    ∃ w2, NewWallet name o now = .ok w2 := by
  unfold NewWallet
  by_cases he : o.encrypt = true
  · rw [if_pos he]
    unfold lockW
    rw [if_neg (h he), if_neg (by simp [mkDeterministicWallet])]
    exact ⟨_, rfl⟩
  · rw [if_neg he]
    exact ⟨_, rfl⟩

/-- C6: when RecoverWallet succeeds for wallet id X with a seed and a new
password, the wallet installed under X is a brand-new wallet with the old
wallet's label, coin type, crypto type and entry count, carries the old
wallet's creation timestamp, and is encrypted iff the password is
non-empty. -/
theorem C6_recover_success (s : ServiceSt) (wltName seed pwd : String) (now : Nat)
    (saveOk : Bool) (w : Wallet) (e0 : Entry) (rest : List Entry)
    (s2 : ServiceSt) (w2 : Wallet)
    (hlk : lookupA s.wallets wltName = some w)
    (henc : w.encrypted = true)
    (htype : w.walletType = WalletTypeDeterministic)
    (hent : w.entries = e0 :: rest)
    (hmatch : deriveAddress w.coin seed 0 = e0.address)
    (hrun : RecoverWallet s wltName seed pwd now saveOk = (s2, .ok w2)) :
    s2 = { s with wallets := setA s.wallets wltName w2 } ∧
    lookupA s2.wallets wltName = some w2 ∧
    w2.filename = wltName ∧
    w2.label = w.label ∧ w2.coin = w.coin ∧ w2.cryptoType = w.cryptoType ∧
    w2.entries.length = w.entries.length ∧ w2.timestamp = w.timestamp ∧
    (w2.encrypted = true ↔ pwd ≠ "") := by
  unfold RecoverWallet at hrun
  by_cases hapi : ¬ s.config.enableWalletAPI
  · rw [if_pos hapi, Prod.mk.injEq] at hrun
    exact absurd hrun.2 (by simp)
  · rw [if_neg hapi] at hrun
    have hg : getWallet s wltName = .ok w := (getWallet_ok_iff _ _ _).2 hlk
    simp only [hg] at hrun
    rw [if_neg (by simp [henc]), if_neg (by simp [htype])] at hrun
    simp only [hent] at hrun
    rw [if_neg (by simp [hmatch])] at hrun
    obtain ⟨w2a, hnw⟩ := NewWallet_ok_total wltName
      { coin := w.coin, label := w.label, seed := seed, encrypt := pwd ≠ "",
        password := pwd, cryptoType := w.cryptoType,
        generateN := (e0 :: rest).length } now
      (fun hE => of_decide_eq_true hE)
    simp only [hnw] at hrun
    cases saveOk with
    | false =>
      rw [save_false, Prod.mk.injEq] at hrun
      exact absurd hrun.2 (by simp)
    | true =>
      rw [save_true, Prod.mk.injEq] at hrun
      obtain ⟨hf1, hf2, hf3, hf4, hf5, hf6, hf7, hf8⟩ := NewWallet_ok _ _ _ _ hnw
      obtain ⟨hs2, hok⟩ := hrun
      have hw2 : { w2a with timestamp := w.timestamp } = w2 := Except.ok.inj hok
      subst hw2
      refine ⟨?_, ?_, hf1, hf2, hf3, hf4, ?_, rfl, ?_⟩
      · rw [← hf1]
        exact hs2.symm
      · rw [← hs2]
        show lookupA (setA s.wallets w2a.filename { w2a with timestamp := w.timestamp })
          wltName = some { w2a with timestamp := w.timestamp }
        rw [lookupA_setA, if_pos hf1]
      · show w2a.entries.length = w.entries.length
        rw [hf8, hent]
        simp
      · show w2a.encrypted = true ↔ pwd ≠ ""
        rw [hf7]
        exact decide_eq_true_iff

/-- C6 (witness): a concrete successful recovery of the encrypted wallet
`wEnc` with its correct seed and a new password. -/
theorem C6_witness :
    sRec = { sEnc with wallets := setA sEnc.wallets "we.wlt" wRec } ∧
    lookupA sRec.wallets "we.wlt" = some wRec ∧
    wRec.filename = "we.wlt" ∧
    wRec.label = wEnc.label ∧ wRec.coin = wEnc.coin ∧
    wRec.cryptoType = wEnc.cryptoType ∧
    wRec.entries.length = wEnc.entries.length ∧
    wRec.timestamp = wEnc.timestamp ∧
    (wRec.encrypted = true ↔ ("np" : String) ≠ "") :=
  C6_recover_success sEnc "we.wlt" "s9" "np" 5 true wEnc
    { address := "skycoin:s9:0" } [] sRec wRec rfl rfl rfl rfl rfl rfl

/-- C7: EncryptWallet fails with `NotExist` when the id is unknown and with
`AlreadyEncrypted` when the wallet is already encrypted; DecryptWallet
fails with `NotEncrypted` when the wallet is not encrypted; each failure
returns the registry state unchanged. -/
theorem C7_encrypt_decrypt_preconditions (s : ServiceSt) (wltID pwd : String)
    (saveOk : Bool) (hapi : s.config.enableWalletAPI = true) :
    (lookupA s.wallets wltID = none →
      EncryptWallet s wltID pwd saveOk = (s, .error .notExist)) ∧
    (∀ w, lookupA s.wallets wltID = some w → w.encrypted = true →
      EncryptWallet s wltID pwd saveOk = (s, .error .walletEncrypted)) ∧
    (∀ w, lookupA s.wallets wltID = some w → w.encrypted = false →
      DecryptWallet s wltID pwd saveOk = (s, .error .notEncrypted)) := by
  refine ⟨?_, ?_, ?_⟩
  · intro h
    unfold EncryptWallet
    rw [if_neg (by simp [hapi])]
    have hg : getWallet s wltID = .error .notExist := by
      unfold getWallet
      rw [h]
    simp only [hg]
  · intro w hw henc
    unfold EncryptWallet
    rw [if_neg (by simp [hapi])]
    have hg : getWallet s wltID = .ok w := (getWallet_ok_iff _ _ _).2 hw
    simp only [hg]
    rw [if_pos henc]
  · intro w hw henc
    unfold DecryptWallet
    rw [if_neg (by simp [hapi])]
    have hg : getWallet s wltID = .ok w := (getWallet_ok_iff _ _ _).2 hw
    simp only [hg]
    rw [if_pos (by simp [henc])]

/-- C7 (witness): the three precondition failures on concrete states. -/
theorem C7_witness :
    EncryptWallet s0Ex "nope" "p" true = (s0Ex, .error .notExist) ∧
    EncryptWallet sEnc "we.wlt" "p" true = (sEnc, .error .walletEncrypted) ∧
    DecryptWallet s0Ex "w1.wlt" "p" true = (s0Ex, .error .notEncrypted) :=
  ⟨(C7_encrypt_decrypt_preconditions s0Ex "nope" "p" true rfl).1 rfl,
   (C7_encrypt_decrypt_preconditions sEnc "we.wlt" "p" true rfl).2.1 wEnc rfl rfl,
   (C7_encrypt_decrypt_preconditions s0Ex "w1.wlt" "p" true rfl).2.2 wEx rfl rfl⟩

theorem NewAddresses_encrypted_preserved (s : ServiceSt) (wltID pwd : String)
    (num : Nat) (saveOk : Bool) (w : Wallet)
    (hlk : lookupA s.wallets wltID = some w) (henc : w.encrypted = true) :
    ∀ w2, lookupA (NewAddresses s wltID pwd num saveOk).1.wallets wltID = some w2 →
      w2.encrypted = true := by
  intro w2 h2
  unfold NewAddresses at h2
  by_cases hapi : ¬ s.config.enableWalletAPI
  · rw [if_pos hapi] at h2
    have h3 : lookupA s.wallets wltID = some w2 := h2
    rw [hlk] at h3
    rw [← Option.some.inj h3]
    exact henc
  · rw [if_neg hapi] at h2
    have hg : getWallet s wltID = .ok w := (getWallet_ok_iff _ _ _).2 hlk
    simp only [hg] at h2
    rw [if_pos henc] at h2
    cases hgu : GuardUpdate w pwd (fun wlt => generateSkycoinAddresses wlt num) with
    | error e =>
      simp only [hgu] at h2
      have h3 : lookupA s.wallets wltID = some w2 := h2
      rw [hlk] at h3
      rw [← Option.some.inj h3]
      exact henc
    | ok pr =>
      rcases pr with ⟨w3, addrs⟩
      simp only [hgu] at h2
      cases saveOk with
      | false =>
        simp only [save_false] at h2
        have h3 : lookupA s.wallets wltID = some w2 := h2
        rw [hlk] at h3
        rw [← Option.some.inj h3]
        exact henc
      | true =>
        simp only [save_true] at h2
        have h3 : lookupA (setA s.wallets w3.filename w3) wltID = some w2 := h2
        rw [lookupA_setA] at h3
        by_cases hk : w3.filename = wltID
        · rw [if_pos hk] at h3
          rw [← Option.some.inj h3]
          exact GuardUpdate_ok_encrypted _ _ _ _ _ hgu
        · rw [if_neg hk] at h3
          rw [hlk] at h3
          rw [← Option.some.inj h3]
          exact henc

theorem UpdateSecrets_encrypted_preserved (s : ServiceSt) (wltID pwd : String)
    (f : Wallet → Except Err Wallet) (saveOk : Bool) (w : Wallet)
    (hlk : lookupA s.wallets wltID = some w) (henc : w.encrypted = true) :
    ∀ w2, lookupA (UpdateSecrets s wltID pwd f saveOk).1.wallets wltID = some w2 →
      w2.encrypted = true := by
  intro w2 h2
  unfold UpdateSecrets at h2
  by_cases hapi : ¬ s.config.enableWalletAPI
  · rw [if_pos hapi] at h2
    have h3 : lookupA s.wallets wltID = some w2 := h2
    rw [hlk] at h3
    rw [← Option.some.inj h3]
    exact henc
  · rw [if_neg hapi] at h2
    have hg : getWallet s wltID = .ok w := (getWallet_ok_iff _ _ _).2 hlk
    simp only [hg] at h2
    rw [if_pos henc] at h2
    cases hgu : GuardUpdate w pwd (fun wlt =>
        match f wlt with
        | .error e => .error e
        | .ok w3 => .ok (w3, ())) with
    | error e =>
      simp only [hgu] at h2
      have h3 : lookupA s.wallets wltID = some w2 := h2
      rw [hlk] at h3
      rw [← Option.some.inj h3]
      exact henc
    | ok pr =>
      rcases pr with ⟨w3, u⟩
      simp only [hgu] at h2
      cases saveOk with
      | false =>
        simp only [save_false] at h2
        have h3 : lookupA s.wallets wltID = some w2 := h2
        rw [hlk] at h3
        rw [← Option.some.inj h3]
        exact henc
      | true =>
        simp only [save_true] at h2
        have h3 : lookupA (setA s.wallets w3.filename w3) wltID = some w2 := h2
        rw [lookupA_setA] at h3
        by_cases hk : w3.filename = wltID
        · rw [if_pos hk] at h3
          rw [← Option.some.inj h3]
          exact GuardUpdate_ok_encrypted _ _ _ _ _ hgu
        · rw [if_neg hk] at h3
          rw [hlk] at h3
          rw [← Option.some.inj h3]
          exact henc

/-- C8: for a wallet stored encrypted, after any guarded-access operation
on it (NewAddresses, UpdateSecrets, GetWalletSeed, ViewSecrets) returns,
with success or error, the wallet retrievable under that id is still
encrypted; the read-only operations do not change the state at all. -/
theorem C8_guarded_ops_keep_encrypted (s : ServiceSt) (wltID pwd : String)
    (num : Nat) (saveOk : Bool) (f : Wallet → Except Err Wallet)
    (g : Wallet → Except Err Unit) (w : Wallet)
    (hlk : lookupA s.wallets wltID = some w) (henc : w.encrypted = true) :
    (∀ w2, lookupA (NewAddresses s wltID pwd num saveOk).1.wallets wltID = some w2 →
      w2.encrypted = true) ∧
    (∀ w2, lookupA (UpdateSecrets s wltID pwd f saveOk).1.wallets wltID = some w2 →
      w2.encrypted = true) ∧
    (GetWalletSeed s wltID pwd).1 = s ∧
    (ViewSecrets s wltID pwd g).1 = s ∧
    (∀ w2, lookupA (GetWalletSeed s wltID pwd).1.wallets wltID = some w2 →
      w2.encrypted = true) ∧
    (∀ w2, lookupA (ViewSecrets s wltID pwd g).1.wallets wltID = some w2 →
      w2.encrypted = true) := by
  have hseed : (GetWalletSeed s wltID pwd).1 = s := by
    unfold GetWalletSeed
    repeat' split
    all_goals rfl
  have hview : (ViewSecrets s wltID pwd g).1 = s := by
    unfold ViewSecrets
    repeat' split
    all_goals rfl
  refine ⟨NewAddresses_encrypted_preserved s wltID pwd num saveOk w hlk henc,
    UpdateSecrets_encrypted_preserved s wltID pwd f saveOk w hlk henc,
    hseed, hview, ?_, ?_⟩
  · intro w2 h2
    rw [hseed, hlk] at h2
    rw [← Option.some.inj h2]
    exact henc
  · intro w2 h2
    rw [hview, hlk] at h2
    rw [← Option.some.inj h2]
    exact henc

/-- C8 (witness): generating an address on the concrete encrypted wallet
`wEnc` leaves it encrypted in the registry. -/
theorem C8_witness : wEnc2.encrypted = true :=
  (C8_guarded_ops_keep_encrypted sEnc "we.wlt" "pw" 1 true
    (fun w => Except.ok w) (fun _ => Except.ok ()) wEnc rfl rfl).1 wEnc2 rfl

/-- C9: for an unencrypted stored wallet, NewAddresses, UpdateSecrets and
ViewSecrets called with a non-empty password fail with `NotEncrypted` and
return the registry state unchanged. -/
theorem C9_nonempty_password_unencrypted (s : ServiceSt) (wltID pwd : String)
    (num : Nat) (saveOk : Bool) (f : Wallet → Except Err Wallet)
    (g : Wallet → Except Err Unit) (w : Wallet)
    (hapi : s.config.enableWalletAPI = true)
    (hlk : lookupA s.wallets wltID = some w)
    (henc : w.encrypted = false) (hpwd : pwd ≠ "") :
    NewAddresses s wltID pwd num saveOk = (s, .error .notEncrypted) ∧
    UpdateSecrets s wltID pwd f saveOk = (s, .error .notEncrypted) ∧
    ViewSecrets s wltID pwd g = (s, .error .notEncrypted) := by
  have hg : getWallet s wltID = .ok w := (getWallet_ok_iff _ _ _).2 hlk
  refine ⟨?_, ?_, ?_⟩
  · unfold NewAddresses
    rw [if_neg (by simp [hapi])]
    simp only [hg]
    rw [if_neg (by simp [henc]), if_pos hpwd]
  · unfold UpdateSecrets
    rw [if_neg (by simp [hapi])]
    simp only [hg]
    rw [if_neg (by simp [henc]), if_pos hpwd]
  · unfold ViewSecrets
    rw [if_neg (by simp [hapi])]
    simp only [hg]
    rw [if_neg (by simp [henc]), if_pos hpwd]

/-- C9 (witness): the three `NotEncrypted` failures on the concrete
unencrypted wallet of `s0Ex`. -/
theorem C9_witness :
    NewAddresses s0Ex "w1.wlt" "pw" 1 true = (s0Ex, .error .notEncrypted) ∧
    UpdateSecrets s0Ex "w1.wlt" "pw" (fun w => Except.ok w) true =
      (s0Ex, .error .notEncrypted) ∧
    ViewSecrets s0Ex "w1.wlt" "pw" (fun _ => Except.ok ()) =
      (s0Ex, .error .notEncrypted) :=
  C9_nonempty_password_unencrypted s0Ex "w1.wlt" "pw" 1 true
    (fun w => Except.ok w) (fun _ => Except.ok ()) wEx rfl rfl rfl (by decide)

theorem UnloadWallet_absent (s : ServiceSt) (wltID : String)
    (hapi : s.config.enableWalletAPI = true)
    (h : lookupA s.wallets wltID = none) :
    UnloadWallet s wltID = (s, .ok ()) := by
  unfold UnloadWallet
  rw [if_neg (by simp [hapi])]
  rw [h]
  show ({ s with wallets := eraseA s.wallets wltID }, Except.ok ()) = (s, Except.ok ())
  rw [eraseA_of_absent _ _ h]

/-- C10: with the wallet API enabled, UnloadWallet never fails, also for an
id that is not in the registry (in which case the state is unchanged), and
it is idempotent: a second UnloadWallet of the same id succeeds and leaves
the state of the first call unchanged. -/
theorem C10_unload_success_idempotent (s : ServiceSt) (wltID : String)
    (hapi : s.config.enableWalletAPI = true) :
    (lookupA s.wallets wltID = none → UnloadWallet s wltID = (s, .ok ())) ∧
    (UnloadWallet s wltID).2 = .ok () ∧
    UnloadWallet (UnloadWallet s wltID).1 wltID = ((UnloadWallet s wltID).1, .ok ()) := by
  have hcfg : (UnloadWallet s wltID).1.config = s.config := by
    unfold UnloadWallet
    repeat' split
    all_goals rfl
  have hnone : lookupA (UnloadWallet s wltID).1.wallets wltID = none := by
    unfold UnloadWallet
    rw [if_neg (by simp [hapi])]
    exact lookupA_eraseA_self _ _
  refine ⟨fun h => UnloadWallet_absent s wltID hapi h, ?_, ?_⟩
  · unfold UnloadWallet
    rw [if_neg (by simp [hapi])]
  · exact UnloadWallet_absent _ wltID (by rw [hcfg]; exact hapi) hnone

/-- C10 (witness): unloading an absent id succeeds and changes nothing;
unloading an existing wallet twice succeeds the second time too. -/
theorem C10_witness :
    UnloadWallet s0Ex "ghost" = (s0Ex, .ok ()) ∧
    UnloadWallet (UnloadWallet s0Ex "w1.wlt").1 "w1.wlt" =
      ((UnloadWallet s0Ex "w1.wlt").1, .ok ()) :=
  ⟨(C10_unload_success_idempotent s0Ex "ghost" rfl).1 rfl,
   (C10_unload_success_idempotent s0Ex "w1.wlt" rfl).2.2⟩

end Skycoin
